import Mathlib

/-!
Verification model of the literature-review agent core:
the search-provider adapters (`src/lib/tools.ts`), the tool executor and
the bounded agent loop (`runAgent` / `executeTool`).

External effects are made explicit:
* network responses of the two search providers are inputs of the adapter
  functions;
* the LLM, the per-dispatch provider responses, the cancellation signal and
  the synthesis stream are oracle fields of `AgentEnv`;
* the event callback `onEvent` is modelled by returning the ordered list of
  emitted events.
-/

namespace LitReview

/-- A normalized academic paper record (`interface Paper`, tools.ts).
`year`/`citationCount` use `Option` for `null`/`undefined`; `source` keeps the
string tag ("semantic_scholar" or "arxiv"). -/
structure Paper where
  id : String
  title : String
  authors : List String
  year : Option Int
  abstract : String
  url : String
  citationCount : Option Int
  source : String
  deriving Repr, DecidableEq

/-- JavaScript `a || d` for an optional string field: absent or empty (falsy)
falls back to `d`. -/
def jsOrStr (s : Option String) (d : String) : String :=
  match s with
  | none => d
  | some v => if v = "" then d else v

/-- JavaScript `n || d` for an optional numeric field: absent or `0` (falsy)
falls back to `d`. -/
def jsOrNat (v : Option Nat) (d : Nat) : Nat :=
  match v with
  | none => d
  | some n => if n = 0 then d else n

/-- JavaScript truthiness of an optional string: present and non-empty. -/
def truthyStr (s : Option String) : Bool :=
  match s with
  | none => false
  | some v => v ≠ ""

/-- JavaScript `s.trim()`: strip leading and trailing whitespace (character
list implementation, so that it evaluates by reduction). -/
def trimChars (l : List Char) : List Char :=
  ((l.dropWhile Char.isWhitespace).reverse.dropWhile Char.isWhitespace).reverse

/-- String version of `trimChars`. -/
def strTrim (s : String) : String :=
  String.mk (trimChars s.data)

/-- JavaScript `s.toLowerCase()`: per-character lowering. -/
def strLower (s : String) : String :=
  String.mk (s.data.map Char.toLower)

/-- JavaScript `s.substring(0, n)`: the first `n` characters. -/
def strTake (s : String) (n : Nat) : String :=
  String.mk (s.data.take n)

/-- Collapse runs of `' '` to a single space (helper for `wsNormalize`). -/
def squeezeSpaces : List Char → List Char
  | [] => []
  | [c] => [c]
  | a :: b :: rest =>
    if a = ' ' && b = ' ' then squeezeSpaces (b :: rest)
    else a :: squeezeSpaces (b :: rest)

/-- JavaScript `s.replace(/\s+/g, " ").trim()` (title/abstract normalization in
the arXiv adapter): each maximal whitespace run becomes one space, then the
result is trimmed. -/
def wsNormalize (s : String) : String :=
  strTrim (String.mk (squeezeSpaces (s.data.map fun c => if c.isWhitespace then ' ' else c)))

/-- JavaScript `s.replace(pat, repl)` with a string pattern: replaces the first
occurrence only. -/
def replaceFirstAux (pat repl : List Char) : List Char → List Char
  | [] => []
  | c :: rest =>
    if pat.isPrefixOf (c :: rest) then repl ++ (c :: rest).drop pat.length
    else c :: replaceFirstAux pat repl rest

/-- String version of `replaceFirstAux`. -/
def replaceFirst (s pat repl : String) : String :=
  String.mk (replaceFirstAux pat.data repl.data s.data)

/-- Helper for `strIncludes`: does `hay` contain `pat` as a contiguous part. -/
def includesAux (pat : List Char) : List Char → Bool
  | [] => pat.isEmpty
  | c :: rest => pat.isPrefixOf (c :: rest) || includesAux pat rest

/-- JavaScript `hay.includes(pat)`: substring test. -/
def strIncludes (hay pat : String) : Bool :=
  includesAux pat.data hay.data

/-- A search request as forwarded to a provider: the query and the `limit`
query parameter embedded in the request URL. -/
structure ProviderRequest where
  query : String
  limit : Nat
  deriving Repr, DecidableEq

/-- One raw record of the Semantic Scholar search response (`data.data`),
with exactly the fields the adapter reads; optional fields may be absent. -/
structure S2Raw where
  paperId : String
  title : Option String
  authors : List String
  year : Option Int
  abstract : Option String
  url : Option String
  citationCount : Option Int
  deriving Repr, DecidableEq

/-- Outcome of the Semantic Scholar HTTP fetch: a non-ok status (which makes
the adapter throw) or a JSON body holding the record list. -/
inductive S2Response
  | httpError (status : String)
  | ok (data : List S2Raw)
  deriving Repr, DecidableEq

/-- Normalization done by `searchSemanticScholar` on the response records:
records without a truthy title are dropped, the rest are mapped to `Paper`. -/
def s2Normalize (data : List S2Raw) : List Paper :=
  (data.filter fun r => truthyStr r.title).map fun r =>
    { id := r.paperId
      title := (r.title).getD ""
      authors := r.authors
      year := r.year
      abstract := (r.abstract).getD ""
      url := jsOrStr r.url ("https://www.semanticscholar.org/paper/" ++ r.paperId)
      citationCount := r.citationCount
      source := "semantic_scholar" }

/-- The adapter `searchSemanticScholar(query, limit = 5)` (tools.ts): issues a
request whose URL carries `limit` unchanged, throws on a non-ok status, else
returns the normalized records. The pair's first component is the request
actually sent to the provider. -/
def searchSemanticScholar (query : String) (limit : Nat := 5) (resp : S2Response) :
    ProviderRequest × Except String (List Paper) :=
  (⟨query, limit⟩,
    match resp with
    | .httpError status => .error ("Semantic Scholar API error: " ++ status)
    | .ok data => .ok (s2Normalize data))

/-- One entry of the arXiv Atom feed, with the fields the adapter reads.
`publishedYear` abstracts `new Date(entry.published[0]).getFullYear()`: it is
the year derived from the published date, absent when the entry has no
published field. -/
structure ArxivEntry where
  id : Option String
  title : Option String
  authorNames : List (Option String)
  publishedYear : Option Int
  summary : Option String
  deriving Repr, DecidableEq

/-- Outcome of the arXiv HTTP fetch: a non-ok status (adapter throws), a feed
whose `entry` field is not an array (adapter returns `[]`), or an entry list
(an absent `entry` field is `ok []`). -/
inductive ArxivResponse
  | httpError (status : String)
  | entriesNotArray
  | ok (entries : List ArxivEntry)
  deriving Repr, DecidableEq

/-- Normalization done by `searchArxiv` on feed entries: whitespace-normalized
title/summary, author names defaulted to `""`, the arXiv id stripped of the
abs-URL prefix. Note: no title filter is applied here. -/
def arxivNormalize (entries : List ArxivEntry) : List Paper :=
  entries.map fun e =>
    let id := strTrim ((e.id).getD "")
    let arxivId := replaceFirst (replaceFirst id "http://arxiv.org/abs/" "")
      "https://arxiv.org/abs/" ""
    { id := arxivId
      title := wsNormalize ((e.title).getD "")
      authors := (e.authorNames).map fun n => n.getD ""
      year := e.publishedYear
      abstract := wsNormalize ((e.summary).getD "")
      url := id
      citationCount := none
      source := "arxiv" }

/-- The adapter `searchArxiv(query, limit = 5)` (tools.ts): issues a request
whose URL carries `max_results=limit` unchanged, throws on a non-ok status,
returns `[]` for a non-array entry field, else the normalized entries. -/
def searchArxiv (query : String) (limit : Nat := 5) (resp : ArxivResponse) :
    ProviderRequest × Except String (List Paper) :=
  (⟨query, limit⟩,
    match resp with
    | .httpError status => .error ("arXiv API error: " ++ status)
    | .entriesNotArray => .ok []
    | .ok entries => .ok (arxivNormalize entries))

/-- The discriminant of an `AgentEvent` (the `type` field union). -/
inductive EventType
  | status
  | paper_found
  | thinking
  | review_start
  | review_chunk
  | complete
  | error
  | papers_count
  deriving Repr, DecidableEq

/-- The `data` payload of an `AgentEvent`: a string, a number, the
paper-metadata record of a `paper_found` event (title, first ≤3 authors, year,
source label), or the completion record (`paperCount`). -/
inductive EventData
  | str (s : String)
  | num (n : Nat)
  | paperMeta (title : String) (authors : List String) (year : Option Int) (source : String)
  | completeMeta (paperCount : Nat)
  deriving Repr, DecidableEq

/-- A lifecycle event `{type, data}` handed to the `onEvent` callback. -/
structure AgentEvent where
  type : EventType
  data : EventData
  deriving Repr, DecidableEq

/-- The Collected Paper Set: the JavaScript `Map<string, Paper>` keyed by
normalized title, modelled as an insertion-ordered association list. -/
abbrev CollectedMap := List (String × Paper)

/-- JavaScript `Map.has`. -/
def mapHas (m : CollectedMap) (k : String) : Bool :=
  m.any fun e => e.1 == k

/-- JavaScript `Map.set`: replaces in place when the key exists, otherwise
appends at the end. -/
def mapSet (m : CollectedMap) (k : String) (v : Paper) : CollectedMap :=
  if mapHas m k then m.map fun e => if e.1 == k then (k, v) else e
  else m ++ [(k, v)]

/-- JavaScript `Map.size` (the model keeps keys distinct, as `Map` does). -/
def mapSize (m : CollectedMap) : Nat :=
  m.length

/-- The deduplication key: `title.toLowerCase().trim()`. -/
def normTitle (t : String) : String :=
  strTrim (strLower t)

/-- The arguments object of a tool invocation (`input` in `executeTool`),
with one optional field per property any tool reads; absent JSON properties
are the defaults. -/
structure ToolArgs where
  query : String := ""
  limit : Option Nat := none
  paper_id : String := ""
  source : String := ""
  paper_title : String := ""
  paper_text : String := ""
  deriving Repr, DecidableEq, Inhabited

/-- External responses available to one `executeTool` dispatch: the Semantic
Scholar response, the arXiv response, and the result of `getPaperDetails`
(tools.ts) — `none` for "not found or API error", since that function catches
internally and degrades to `null`. Its fetch/XML plumbing is abstracted to the
`Paper` it would produce. -/
structure ToolEnv where
  s2 : S2Response := .ok []
  arxiv : ArxivResponse := .ok []
  details : Option Paper := none
  deriving Repr, DecidableEq

/-- Result of one `executeTool` call: the string fed back to the LLM (or the
thrown error message), the updated Collected Paper Set, the events emitted via
`onEvent` in order, and the provider requests issued. -/
structure ToolResult where
  result : Except String String
  collected : CollectedMap
  events : List AgentEvent
  requests : List ProviderRequest
  deriving Repr

/-- The for-loop over returned papers in the two search branches of
`executeTool`: a paper with a truthy title whose normalized title is not yet a
key is inserted and announced with a `paper_found` event. -/
def insertPapers (srcLabel : String) (collected : CollectedMap) :
    List Paper → CollectedMap × List AgentEvent
  | [] => (collected, [])
  | p :: rest =>
    if p.title ≠ "" && !mapHas collected (normTitle p.title) then
      let m := mapSet collected (normTitle p.title) p
      let r := insertPapers srcLabel m rest
      (r.1, ⟨.paper_found, .paperMeta p.title (p.authors.take 3) p.year srcLabel⟩ :: r.2)
    else
      insertPapers srcLabel collected rest

/-- Abstract rendering of `p.abstract?.substring(0, 500) || "No abstract
available"` in the search result payloads. -/
def abstractSnippet (a : String) : String :=
  if a = "" then "No abstract available" else strTake a 500

/-- Rendering of an optional year in payloads (`null` when absent). -/
def yearStr : Option Int → String
  | none => "null"
  | some y => toString y

/-- Rendering of an optional citation count in payloads. -/
def citeStr : Option Int → String
  | none => "null"
  | some c => toString c

/-- Serialization of one search-result entry of the `JSON.stringify` payload
fed back to the LLM (field values and order follow the source; JSON
punctuation is abstracted to a flat field concatenation). `withCites` is true
for the Semantic Scholar payload, which also carries `citationCount`. -/
def searchEntryJson (withCites : Bool) (p : Paper) : String :=
  "id=" ++ p.id ++ ";title=" ++ p.title ++ ";authors="
    ++ String.intercalate ", " (p.authors.take 3) ++ ";year=" ++ yearStr p.year
    ++ ";abstract=" ++ abstractSnippet p.abstract
    ++ (if withCites then ";citationCount=" ++ citeStr p.citationCount else "")
    ++ ";source=" ++ p.source

/-- Serialization of a whole search-result list. -/
def searchResultJson (withCites : Bool) (papers : List Paper) : String :=
  String.intercalate "|" (papers.map (searchEntryJson withCites))

/-- Serialization of the `get_paper_details` success payload. -/
def detailJson (p : Paper) : String :=
  "id=" ++ p.id ++ ";title=" ++ p.title ++ ";authors="
    ++ String.intercalate ", " p.authors ++ ";year=" ++ yearStr p.year
    ++ ";abstract=" ++ p.abstract ++ ";url=" ++ p.url
    ++ ";citationCount=" ++ citeStr p.citationCount

/-- Serialization of the `extract_findings` echo payload. -/
def extractJson (paperTitle paperText : String) : String :=
  "paper_title=" ++ paperTitle ++ ";text_analyzed=" ++ paperText
    ++ ";instruction=Use the above text to identify key findings, methodology, and conclusions for the literature review."

/-- The tool executor `executeTool(name, input, collectedPapers, onEvent)`.
The pacing delays (`delay(800)` / `delay(500)`) have no observable effect in
the model. A thrown provider error surfaces as `.error` in `result`, with the
events already emitted before the throw kept. -/
def executeTool (name : String) (input : ToolArgs) (env : ToolEnv)
    (collected : CollectedMap) : ToolResult :=
  if name = "search_semantic_scholar" then
    let query := input.query
    let limit := min (jsOrNat input.limit 10) 20
    let statusEv : AgentEvent :=
      ⟨.status, .str ("Searching Semantic Scholar for \"" ++ query ++ "\"...")⟩
    let call := searchSemanticScholar query limit env.s2
    match call.2 with
    | .error msg => ⟨.error msg, collected, [statusEv], [call.1]⟩
    | .ok papers =>
      let ins := insertPapers "Semantic Scholar" collected papers
      ⟨.ok (searchResultJson true papers), ins.1,
        statusEv :: ins.2 ++ [⟨.papers_count, .num (mapSize ins.1)⟩], [call.1]⟩
  else if name = "search_arxiv" then
    let query := input.query
    let limit := min (jsOrNat input.limit 10) 20
    let statusEv : AgentEvent :=
      ⟨.status, .str ("Searching arXiv for \"" ++ query ++ "\"...")⟩
    let call := searchArxiv query limit env.arxiv
    match call.2 with
    | .error msg => ⟨.error msg, collected, [statusEv], [call.1]⟩
    | .ok papers =>
      let ins := insertPapers "arXiv" collected papers
      ⟨.ok (searchResultJson false papers), ins.1,
        statusEv :: ins.2 ++ [⟨.papers_count, .num (mapSize ins.1)⟩], [call.1]⟩
  else if name = "get_paper_details" then
    let statusEv : AgentEvent := ⟨.status, .str "Fetching details for paper..."⟩
    match env.details with
    | some paper =>
      if mapHas collected (normTitle paper.title) then
        ⟨.ok (detailJson paper), collected, [statusEv], []⟩
      else
        let m := mapSet collected (normTitle paper.title) paper
        ⟨.ok (detailJson paper), m,
          [statusEv,
           ⟨.paper_found, .paperMeta paper.title (paper.authors.take 3) paper.year input.source⟩,
           ⟨.papers_count, .num (mapSize m)⟩], []⟩
    | none => ⟨.ok "Paper not found or API error occurred.", collected, [statusEv], []⟩
  else if name = "extract_findings" then
    ⟨.ok (extractJson input.paper_title input.paper_text), collected,
      [⟨.status, .str ("Extracting findings from \"" ++ strTake input.paper_title 60 ++ "...\"")⟩],
      []⟩
  else
    ⟨.ok ("Unknown tool: " ++ name), collected, [], []⟩

/-- One content block of an LLM response: text, or a tool-use request
(id, tool name, arguments). -/
inductive Block
  | text (s : String)
  | toolUse (id : String) (name : String) (input : ToolArgs)
  deriving Repr, DecidableEq

/-- An LLM response of the search phase: content blocks and the
provider-reported stop reason (a string such as "end_turn"). -/
structure LLMResponse where
  content : List Block
  stopReason : String
  deriving Repr, DecidableEq

/-- Outcome of one `client.messages.create` call: a response, or a thrown
transport/auth error with its message. -/
inductive LLMOutcome
  | ok (r : LLMResponse)
  | failed (msg : String)
  deriving Repr, DecidableEq

/-- The content of one transcript message: plain text, the assistant's
content blocks, or a list of `(tool_use_id, result string)` tool results. -/
inductive MsgContent
  | text (s : String)
  | blocks (bs : List Block)
  | toolResults (rs : List (String × String))
  deriving Repr, DecidableEq

/-- One transcript message (`Anthropic.Messages.MessageParam`). -/
structure Message where
  role : String
  content : MsgContent
  deriving Repr, DecidableEq

/-- The text blocks of a response, in order (`textBlocks` in `runAgent`). -/
def textBlocks (bs : List Block) : List String :=
  bs.filterMap fun b =>
    match b with
    | .text s => some s
    | _ => none

/-- The tool-use blocks of a response, in order (`toolUseBlocks`). -/
def toolUses (bs : List Block) : List (String × String × ToolArgs) :=
  bs.filterMap fun b =>
    match b with
    | .toolUse i n a => some (i, n, a)
    | _ => none

/-- The `thinking` events of one reasoning step: one per text block with
non-empty trimmed text, carrying the trimmed text. -/
def thinkEvents (tB : List String) : List AgentEvent :=
  tB.filterMap fun s => if strTrim s = "" then none else some ⟨.thinking, .str (strTrim s)⟩

/-- One item of the synthesis stream: a text delta (`content_block_delta`
whose delta has a `text` field) or any other stream event. -/
inductive SynthItem
  | textDelta (s : String)
  | other
  deriving Repr, DecidableEq

/-- The synthesis streaming call: the items it yields, then how the iteration
ends — normal exhaustion (`.ok`) or a thrown error. A stream call that throws
before yielding anything is `⟨[], .error msg⟩`. -/
structure SynthStream where
  items : List SynthItem
  final : Except String Unit

/-- Oracles for one review run: `llm i` is the outcome of the i-th search
phase LLM call, `tool i` the provider responses for the i-th tool dispatch,
`aborted i` the value of `signal?.aborted` at the i-th poll, `synth` the
synthesis stream. -/
structure AgentEnv where
  llm : Nat → LLMOutcome
  tool : Nat → ToolEnv
  aborted : Nat → Bool
  synth : SynthStream

/-- The error event emitted on every observed cancellation. -/
def cancelEv : AgentEvent :=
  ⟨.error, .str "Review cancelled by user"⟩

/-- How the search-phase while-loop ended: a cancellation observed (the whole
function returns), a thrown LLM call (returns), a `break` through the
termination condition, or the iteration budget running out. -/
inductive SearchExit
  | cancelled
  | apiFailed (msg : String)
  | finished
  | exhausted
  deriving Repr, DecidableEq

/-- Result of the search-phase loop: events emitted, final Collected Paper
Set, final transcript, how it ended, the final value of the `iterations`
counter (= number of LLM calls issued), the `(iteration, tool name)` record of
every `executeTool` dispatch, and the next tool-dispatch / abort-poll indices. -/
structure SearchResult where
  events : List AgentEvent
  collected : CollectedMap
  messages : List Message
  exit : SearchExit
  llmCalls : Nat
  dispatches : List (Nat × String)
  nextToolIdx : Nat
  nextCheckIdx : Nat

/-- Result of the for-loop over one response's tool-use blocks. -/
structure DispatchResult where
  events : List AgentEvent
  collected : CollectedMap
  results : List (String × String)
  dispatched : List (Nat × String)
  nextToolIdx : Nat
  nextCheckIdx : Nat
  cancelled : Bool

/-- The for-loop over the tool-use blocks of one response (`runAgent`):
`signal?.aborted` is polled before each dispatch (emitting `cancelEv` and
returning on cancellation); `executeTool` is wrapped in try/catch, a caught
failure becoming a warning status event and an instructional error string in
the tool result. -/
def dispatchTools (env : AgentEnv) (iterNum : Nat) :
    List (String × String × ToolArgs) → CollectedMap → Nat → Nat → DispatchResult
  | [], collected, toolIdx, checkIdx =>
    ⟨[], collected, [], [], toolIdx, checkIdx, false⟩
  | (bid, bname, binput) :: rest, collected, toolIdx, checkIdx =>
    if env.aborted checkIdx then
      ⟨[cancelEv], collected, [], [], toolIdx, checkIdx + 1, true⟩
    else
      let tr := executeTool bname binput (env.tool toolIdx) collected
      let hr : String × List AgentEvent :=
        match tr.result with
        | .ok s => (s, [])
        | .error msg =>
          ("Error: " ++ msg ++ ". Please continue with other searches.",
           [⟨.status, .str ("Warning: " ++ bname ++ " failed — " ++ msg ++ ". Continuing...")⟩])
      let r := dispatchTools env iterNum rest tr.collected (toolIdx + 1) (checkIdx + 1)
      ⟨tr.events ++ hr.2 ++ r.events, r.collected, (bid, hr.1) :: r.results,
        (iterNum, bname) :: r.dispatched, r.nextToolIdx, r.nextCheckIdx, r.cancelled⟩

/-- The synthetic user nudge appended when the LLM requests no tools before
termination is authorized. -/
def nudgeMsg : Message :=
  ⟨"user", .text "Respond with \"SYNTHESIS_READY\" if you have enough papers (aim for up to 5)."⟩

/-- The hard iteration ceiling of the search phase. -/
def maxIterations : Nat := 8

/-- The sentinel phrase ending the search phase. -/
def sentinel : String := "SYNTHESIS_READY"

/-- The status event opening iteration `iter`. -/
def stepStatusEv (iter : Nat) : AgentEvent :=
  ⟨.status, .str ("Agent reasoning... (step " ++ toString iter ++ ")")⟩

/-- The status event emitted when the termination condition fires. -/
def searchDoneEv (collected : CollectedMap) : AgentEvent :=
  ⟨.status, .str ("Search phase complete. Collected " ++ toString (mapSize collected) ++ " papers.")⟩

/-- Prepend events to a search result (event accumulation of one step). -/
def withPre (pre : List AgentEvent) (r : SearchResult) : SearchResult :=
  { r with events := pre ++ r.events }

/-- The search-phase while-loop of `runAgent`. `fuel` is the number of
remaining loop entries (`maxIterations - iterations`, so `fuel = 0` is the
loop condition `iterations < maxIterations` failing); `iterations` the counter
so far; the remaining arguments thread the transcript and the Collected Paper
Set. Each loop entry polls the abort signal, increments the counter, emits the
step status, calls the LLM, emits `thinking` events, then either fires the
termination condition, appends a nudge, or dispatches the requested tools. -/
def searchLoop (env : AgentEnv) :
    Nat → Nat → Nat → Nat → List Message → CollectedMap → SearchResult
  | 0, iterations, toolIdx, checkIdx, messages, collected =>
    ⟨[], collected, messages, .exhausted, iterations, [], toolIdx, checkIdx⟩
  | fuel + 1, iterations, toolIdx, checkIdx, messages, collected =>
    if env.aborted checkIdx then
      ⟨[cancelEv], collected, messages, .cancelled, iterations, [], toolIdx, checkIdx + 1⟩
    else
      let iter := iterations + 1
      match env.llm iterations with
      | .failed msg =>
        ⟨[stepStatusEv iter, ⟨.error, .str ("API error: " ++ msg)⟩], collected, messages,
          .apiFailed msg, iter, [], toolIdx, checkIdx + 1⟩
      | .ok resp =>
        let tU := toolUses resp.content
        let tB := textBlocks resp.content
        let textContent := String.intercalate "\n" tB
        if strIncludes textContent sentinel || (tU.isEmpty && decide (iter ≥ 3))
            || (resp.stopReason == "end_turn" && tU.isEmpty) then
          ⟨stepStatusEv iter :: thinkEvents tB ++ [searchDoneEv collected], collected, messages,
            .finished, iter, [], toolIdx, checkIdx + 1⟩
        else if tU.isEmpty then
          withPre (stepStatusEv iter :: thinkEvents tB)
            (searchLoop env fuel iter toolIdx (checkIdx + 1)
              (messages ++ [⟨"assistant", .blocks resp.content⟩, nudgeMsg]) collected)
        else
          let d := dispatchTools env iter tU collected toolIdx (checkIdx + 1)
          if d.cancelled then
            ⟨stepStatusEv iter :: thinkEvents tB ++ d.events, d.collected,
              messages ++ [⟨"assistant", .blocks resp.content⟩], .cancelled, iter,
              d.dispatched, d.nextToolIdx, d.nextCheckIdx⟩
          else
            let r := searchLoop env fuel iter d.nextToolIdx d.nextCheckIdx
              (messages ++ [⟨"assistant", .blocks resp.content⟩, ⟨"user", .toolResults d.results⟩])
              d.collected
            { r with events := stepStatusEv iter :: thinkEvents tB ++ d.events ++ r.events,
                     dispatches := d.dispatched ++ r.dispatches }

/-- The initial transcript built from the topic. -/
def initialMessages (topic : String) : List Message :=
  [⟨"user", .text ("Please conduct a literature review on the following research topic: \""
      ++ topic ++ "\"\n\nSearch for relevant papers. Aim for up to 5 high-quality papers, then stop searching.")⟩]

/-- Phase 1 of `runAgent`: the search loop from the initial state. -/
def runSearchPhase (env : AgentEnv) (topic : String) : SearchResult :=
  searchLoop env maxIterations 0 0 0 (initialMessages topic) []

/-- How a whole run ended. -/
inductive RunOutcome
  | cancelled
  | apiFailed
  | emptySet
  | synthFailed
  | completed
  deriving Repr, DecidableEq

/-- Result of a whole run: the ordered event trace, how it ended, and the
number of abort polls performed. -/
structure RunResult where
  events : List AgentEvent
  outcome : RunOutcome
  checksUsed : Nat

/-- The for-await loop over the synthesis stream items: each incoming item
polls the abort signal first (emitting `cancelEv`, aborting the stream and
returning on cancellation), then forwards a text delta as a `review_chunk`
event. Returns the events, the next poll index, and whether it cancelled. -/
def synthItemsLoop (env : AgentEnv) :
    List SynthItem → Nat → List AgentEvent × Nat × Bool
  | [], checkIdx => ([], checkIdx, false)
  | item :: rest, checkIdx =>
    if env.aborted checkIdx then ([cancelEv], checkIdx + 1, true)
    else
      let r := synthItemsLoop env rest (checkIdx + 1)
      match item with
      | .textDelta s => (⟨.review_chunk, .str s⟩ :: r.1, r.2.1, r.2.2)
      | .other => r

/-- Phase 2 of `runAgent` (inside its try/catch): consume the stream; on
normal exhaustion emit the single `complete` event carrying the paper count;
on a thrown stream error, the catch re-polls the abort signal and emits either
`cancelEv` or the generation error event. -/
def synthPhase (env : AgentEnv) (checkIdx : Nat) (collected : CollectedMap) :
    List AgentEvent × Nat × RunOutcome :=
  let r := synthItemsLoop env env.synth.items checkIdx
  if r.2.2 then (r.1, r.2.1, .cancelled)
  else
    match env.synth.final with
    | .ok _ => (r.1 ++ [⟨.complete, .completeMeta (mapSize collected)⟩], r.2.1, .completed)
    | .error msg =>
      if env.aborted r.2.1 then (r.1 ++ [cancelEv], r.2.1 + 1, .cancelled)
      else (r.1 ++ [⟨.error, .str ("Review generation error: " ++ msg)⟩], r.2.1 + 1, .synthFailed)

/-- The opening status event of a run. -/
def startEv (topic : String) : AgentEvent :=
  ⟨.status, .str ("Starting literature review on: \"" ++ topic ++ "\"")⟩

/-- The error event of the empty-set guard. -/
def noPapersEv : AgentEvent :=
  ⟨.error, .str "No papers were found. Please try a different or broader topic."⟩

/-- The events announcing synthesis. -/
def reviewStartEvs (collected : CollectedMap) : List AgentEvent :=
  [⟨.review_start, .str ""⟩,
   ⟨.status, .str ("Writing literature review from " ++ toString (mapSize collected) ++ " papers...")⟩]

/-- The whole `runAgent(topic, onEvent, signal)`: the opening status event,
the search phase, then — unless the search phase already returned — either the
empty-set guard or the synthesis phase. -/
def runAgent (env : AgentEnv) (topic : String) : RunResult :=
  let r := runSearchPhase env topic
  match r.exit with
  | .cancelled => ⟨startEv topic :: r.events, .cancelled, r.nextCheckIdx⟩
  | .apiFailed _ => ⟨startEv topic :: r.events, .apiFailed, r.nextCheckIdx⟩
  | _ =>
    if mapSize r.collected = 0 then
      ⟨startEv topic :: r.events ++ [noPapersEv], .emptySet, r.nextCheckIdx⟩
    else
      let s := synthPhase env r.nextCheckIdx r.collected
      ⟨startEv topic :: r.events ++ reviewStartEvs r.collected ++ s.1, s.2.2, s.2.1⟩

/-- The values carried by the `papers_count` events of a trace, in order. -/
def countsOf (es : List AgentEvent) : List Nat :=
  es.filterMap fun e =>
    match e with
    | ⟨.papers_count, .num n⟩ => some n
    | _ => none

/-- The well-formedness invariant of the Collected Paper Set: keys are
pairwise distinct and every key is the normalized title of its paper. -/
def goodMap (m : CollectedMap) : Prop :=
  (m.map Prod.fst).Nodup ∧ ∀ e ∈ m, e.1 = normTitle e.2.title

/-- The Collected Paper Set produced by a sequence of tool executions
(name, arguments, provider responses) threaded through `executeTool`,
starting from the empty set of a fresh run. -/
def runToolCalls (calls : List (String × ToolArgs × ToolEnv)) : CollectedMap :=
  calls.foldl (fun m c => (executeTool c.1 c.2.1 c.2.2 m).collected) []

/-- Events the search phase may emit while running normally (everything
except the terminal `error` and the synthesis-only event types). -/
def searchEv (e : AgentEvent) : Prop :=
  e.type = .status ∨ e.type = .thinking ∨ e.type = .paper_found ∨ e.type = .papers_count

/-- A list of counts that is non-decreasing starting from the base `n`. -/
def MonoFrom (n : Nat) : List Nat → Prop
  | [] => True
  | x :: xs => n ≤ x ∧ MonoFrom x xs

/-- Counts emitted over a program segment: non-decreasing from the set size
`lo` at the segment's start, all bounded by the size `hi` at its end. -/
def CountsOk (lo : Nat) (l : List Nat) (hi : Nat) : Prop :=
  MonoFrom lo l ∧ (∀ x ∈ l, x ≤ hi) ∧ lo ≤ hi

/-- An abort oracle that behaves like an `AbortSignal`: once raised it stays
raised at every later poll. -/
def MonoAborted (env : AgentEnv) : Prop :=
  ∀ i j, i ≤ j → env.aborted i = true → env.aborted j = true

/-- A provider environment returning nothing (empty result sets). -/
def quietToolEnv : ToolEnv := {}

/-- An empty, well-behaved synthesis stream. -/
def emptySynth : SynthStream := ⟨[], .ok ()⟩

/-- An LLM that answers every call with the same response. -/
def constLLM (r : LLMResponse) : Nat → LLMOutcome := fun _ => .ok r

/-- A run environment with a constant LLM response, quiet providers, a signal
that is never raised, and an empty synthesis stream. -/
def calmEnv (r : LLMResponse) : AgentEnv :=
  ⟨constLLM r, fun _ => quietToolEnv, fun _ => false, emptySynth⟩

/-- A response with plain text (no sentinel), no tool-use blocks, and a
natural end of turn: the input refuting C3 as stated. -/
def endTurnResp : LLMResponse :=
  ⟨[.text "I could not find more papers."], "end_turn"⟩

/-- A response with plain text, no tool-use blocks, and a stop reason other
than a natural end of turn: a witness input for the amended C3. -/
def stalledResp : LLMResponse :=
  ⟨[.text "Let me think about the topic first."], "max_tokens"⟩

/-- A response that says the sentinel phrase and requests a tool call in the
same turn: a witness input for C6. -/
def sentinelResp : LLMResponse :=
  ⟨[.text "SYNTHESIS_READY", .toolUse "t1" "search_arxiv" {query := "q"}], "tool_use"⟩

/-- A run environment whose signal is already raised at the first poll. -/
def abortedEnv : AgentEnv :=
  ⟨constLLM endTurnResp, fun _ => quietToolEnv, fun _ => true, emptySynth⟩

/-- A raw Semantic Scholar record with a title, for witnesses. -/
def sampleRaw : S2Raw :=
  ⟨"p1", some "Deep Learning", ["Ada", "Ben", "Cat", "Dee"], some 2020, some "An abstract.", none, some 5⟩

/-- A tool environment whose Semantic Scholar search returns one record. -/
def oneHitToolEnv : ToolEnv := {s2 := .ok [sampleRaw]}

/-- An arXiv feed entry without a title field, for the C9 counterexample. -/
def untitledEntry : ArxivEntry :=
  ⟨some "http://arxiv.org/abs/1234.5678", none, [], none, some "An abstract."⟩

/-- The paper `searchArxiv` builds from `untitledEntry`: its title is empty. -/
def untitledPaper : Paper :=
  ⟨"1234.5678", "", [], none, "An abstract.", "http://arxiv.org/abs/1234.5678", none, "arxiv"⟩

/-- A response that says only the sentinel phrase, with no tool use. -/
def sentinelOnlyResp : LLMResponse :=
  ⟨[.text "SYNTHESIS_READY"], "end_turn"⟩

/-- The `Paper` that `s2Normalize` builds from `sampleRaw`. -/
def samplePaper : Paper :=
  ⟨"p1", "Deep Learning", ["Ada", "Ben", "Cat", "Dee"], some 2020, "An abstract.",
    "https://www.semanticscholar.org/paper/p1", some 5, "semantic_scholar"⟩

theorem mapSize_mapSet (m : CollectedMap) (k : String) (v : Paper) :
    mapSize m ≤ mapSize (mapSet m k v) := by
  unfold mapSet mapSize
  split
  · simp
  · simp

theorem mapSize_insertPapers (srcLabel : String) (papers : List Paper) :
    ∀ m : CollectedMap, mapSize m ≤ mapSize (insertPapers srcLabel m papers).1 := by
  induction papers with
  | nil => intro m; simp [insertPapers]
  | cons p rest ih =>
    intro m
    rw [insertPapers]
    split
    · exact le_trans (mapSize_mapSet m (normTitle p.title) p) (ih _)
    · exact ih m

theorem insertPapers_events (srcLabel : String) (papers : List Paper) :
    ∀ m : CollectedMap, ∀ e ∈ (insertPapers srcLabel m papers).2,
      e.type = EventType.paper_found := by
  induction papers with
  | nil => intro m e he; simp [insertPapers] at he
  | cons p rest ih =>
    intro m e he
    rw [insertPapers] at he
    split at he
    · rcases List.mem_cons.mp he with h | h
      · subst h; rfl
      · exact ih _ e h
    · exact ih m e he

theorem mapSize_executeTool (name : String) (input : ToolArgs) (env : ToolEnv)
    (collected : CollectedMap) :
    mapSize collected ≤ mapSize (executeTool name input env collected).collected := by
  unfold executeTool
  split
  · cases hc : (searchSemanticScholar input.query (min (jsOrNat input.limit 10) 20) env.s2).2 with
    | error msg => simp [hc]
    | ok papers => simp only [hc]; exact mapSize_insertPapers _ _ _
  · split
    · cases hc : (searchArxiv input.query (min (jsOrNat input.limit 10) 20) env.arxiv).2 with
      | error msg => simp [hc]
      | ok papers => simp only [hc]; exact mapSize_insertPapers _ _ _
    · split
      · cases hd : env.details with
        | some paper =>
          simp only [hd]
          split
          · simp
          · exact mapSize_mapSet _ _ _
        | none => simp [hd]
      · split
        · simp
        · simp

theorem executeTool_events (name : String) (input : ToolArgs) (env : ToolEnv)
    (collected : CollectedMap) :
    ∀ e ∈ (executeTool name input env collected).events, searchEv e := by
  intro e he
  unfold executeTool at he
  split at he
  · cases hc : (searchSemanticScholar input.query (min (jsOrNat input.limit 10) 20) env.s2).2 with
    | error msg =>
      simp only [hc] at he
      simp at he
      subst he
      exact Or.inl rfl
    | ok papers =>
      simp only [hc] at he
      simp at he
      rcases he with h | h | h
      · subst h; exact Or.inl rfl
      · exact Or.inr (Or.inr (Or.inl (insertPapers_events _ _ _ e h)))
      · subst h; exact Or.inr (Or.inr (Or.inr rfl))
  · split at he
    · cases hc : (searchArxiv input.query (min (jsOrNat input.limit 10) 20) env.arxiv).2 with
      | error msg =>
        simp only [hc] at he
        simp at he
        subst he
        exact Or.inl rfl
      | ok papers =>
        simp only [hc] at he
        simp at he
        rcases he with h | h | h
        · subst h; exact Or.inl rfl
        · exact Or.inr (Or.inr (Or.inl (insertPapers_events _ _ _ e h)))
        · subst h; exact Or.inr (Or.inr (Or.inr rfl))
    · split at he
      · cases hd : env.details with
        | some paper =>
          simp only [hd] at he
          split at he
          · simp at he; subst he; exact Or.inl rfl
          · simp at he
            rcases he with h | h | h
            · subst h; exact Or.inl rfl
            · subst h; exact Or.inr (Or.inr (Or.inl rfl))
            · subst h; exact Or.inr (Or.inr (Or.inr rfl))
        | none =>
          simp only [hd] at he
          simp at he
          subst he
          exact Or.inl rfl
      · split at he
        · simp at he; subst he; exact Or.inl rfl
        · simp at he

theorem monoFrom_weaken {n m : Nat} (h : n ≤ m) :
    ∀ l, MonoFrom m l → MonoFrom n l := by
  intro l hl
  cases l with
  | nil => trivial
  | cons x xs => exact ⟨le_trans h hl.1, hl.2⟩

theorem countsOk_append {lo mid hi : Nat} {l1 l2 : List Nat}
    (h1 : CountsOk lo l1 mid) (h2 : CountsOk mid l2 hi) :
    CountsOk lo (l1 ++ l2) hi := by
  induction l1 generalizing lo with
  | nil =>
    exact ⟨monoFrom_weaken h1.2.2 _ h2.1, fun x hx => h2.2.1 x hx, le_trans h1.2.2 h2.2.2⟩
  | cons x xs ih =>
    obtain ⟨⟨hlx, hmono⟩, hbd, hlomid⟩ := h1
    have hxmid : x ≤ mid := hbd x (List.mem_cons_self x xs)
    have hrest := ih ⟨hmono, fun y hy => hbd y (List.mem_cons_of_mem _ hy), hxmid⟩
    refine ⟨⟨hlx, hrest.1⟩, ?_, le_trans hlomid h2.2.2⟩
    intro y hy
    rcases List.mem_cons.mp hy with h | h
    · subst h; exact le_trans hxmid h2.2.2
    · exact hrest.2.1 y h

theorem countsOk_refl (n : Nat) : CountsOk n [] n :=
  ⟨trivial, fun x hx => absurd hx (List.not_mem_nil x), le_refl n⟩

theorem countsOf_nil_of (es : List AgentEvent)
    (h : ∀ e ∈ es, e.type ≠ EventType.papers_count) : countsOf es = [] := by
  induction es with
  | nil => rfl
  | cons e rest ih =>
    have he := h e (List.mem_cons_self e rest)
    have hr := ih fun x hx => h x (List.mem_cons_of_mem _ hx)
    obtain ⟨t, d⟩ := e
    cases t <;> cases d <;> simp_all [countsOf]

theorem countsOf_insertPapers (srcLabel : String) (m : CollectedMap) (ps : List Paper) :
    countsOf (insertPapers srcLabel m ps).2 = [] := by
  refine countsOf_nil_of _ fun e he => ?_
  rw [insertPapers_events srcLabel ps m e he]
  intro hc
  exact absurd hc (by simp)

theorem executeTool_counts (name : String) (input : ToolArgs) (env : ToolEnv)
    (collected : CollectedMap) :
    CountsOk (mapSize collected) (countsOf (executeTool name input env collected).events)
      (mapSize (executeTool name input env collected).collected) := by
  unfold executeTool
  split
  · cases hc : (searchSemanticScholar input.query (min (jsOrNat input.limit 10) 20) env.s2).2 with
    | error msg => simp only [hc]; simp [countsOf, countsOk_refl]
    | ok papers =>
      simp only [hc]
      simp [countsOf, List.filterMap_append, List.filterMap_cons]
      rw [show (List.filterMap _ (insertPapers "Semantic Scholar" collected papers).2) =
        countsOf (insertPapers "Semantic Scholar" collected papers).2 from rfl]
      rw [countsOf_insertPapers]
      exact ⟨⟨mapSize_insertPapers _ _ _, trivial⟩,
        fun x hx => by simp at hx; subst hx; exact le_refl _,
        mapSize_insertPapers _ _ _⟩
  · split
    · cases hc : (searchArxiv input.query (min (jsOrNat input.limit 10) 20) env.arxiv).2 with
      | error msg => simp only [hc]; simp [countsOf, countsOk_refl]
      | ok papers =>
        simp only [hc]
        simp [countsOf, List.filterMap_append, List.filterMap_cons]
        rw [show (List.filterMap _ (insertPapers "arXiv" collected papers).2) =
          countsOf (insertPapers "arXiv" collected papers).2 from rfl]
        rw [countsOf_insertPapers]
        exact ⟨⟨mapSize_insertPapers _ _ _, trivial⟩,
          fun x hx => by simp at hx; subst hx; exact le_refl _,
          mapSize_insertPapers _ _ _⟩
    · split
      · cases hd : env.details with
        | some paper =>
          simp only [hd]
          split
          · simp [countsOf, countsOk_refl]
          · simp [countsOf, List.filterMap_cons]
            exact ⟨⟨mapSize_mapSet _ _ _, trivial⟩,
              fun x hx => by simp at hx; subst hx; exact le_refl _,
              mapSize_mapSet _ _ _⟩
        | none => simp only [hd]; simp [countsOf, countsOk_refl]
      · split
        · simp [countsOf, countsOk_refl]
        · simp [countsOf, countsOk_refl]

theorem mapHas_true_iff (m : CollectedMap) (k : String) :
    mapHas m k = true ↔ k ∈ m.map Prod.fst := by
  simp only [mapHas, List.any_eq_true, beq_iff_eq, List.mem_map]

theorem goodMap_mapSet_fresh (m : CollectedMap) (v : Paper)
    (hg : goodMap m) (hk : mapHas m (normTitle v.title) = false) :
    goodMap (mapSet m (normTitle v.title) v) := by
  have hnot : normTitle v.title ∉ m.map Prod.fst := by
    intro hmem
    rw [← mapHas_true_iff] at hmem
    rw [hk] at hmem
    exact absurd hmem (by simp)
  unfold mapSet
  rw [hk]
  simp only [Bool.false_eq_true, if_false]
  constructor
  · rw [List.map_append]
    simp [List.nodup_append, hg.1, hnot]
  · intro e he
    rcases List.mem_append.mp he with h | h
    · exact hg.2 e h
    · simp at h; subst h; rfl

theorem goodMap_insertPapers (srcLabel : String) (ps : List Paper) :
    ∀ m : CollectedMap, goodMap m → goodMap (insertPapers srcLabel m ps).1 := by
  induction ps with
  | nil => intro m hg; simpa [insertPapers] using hg
  | cons p rest ih =>
    intro m hg
    rw [insertPapers]
    split
    · rename_i hcond
      simp only [Bool.and_eq_true, decide_eq_true_eq, Bool.not_eq_true'] at hcond
      exact ih _ (goodMap_mapSet_fresh m p hg hcond.2)
    · exact ih m hg

theorem goodMap_executeTool (name : String) (input : ToolArgs) (env : ToolEnv)
    (collected : CollectedMap) (hg : goodMap collected) :
    goodMap (executeTool name input env collected).collected := by
  unfold executeTool
  split
  · cases hc : (searchSemanticScholar input.query (min (jsOrNat input.limit 10) 20) env.s2).2 with
    | error msg => simpa [hc] using hg
    | ok papers => simp only [hc]; exact goodMap_insertPapers _ _ _ hg
  · split
    · cases hc : (searchArxiv input.query (min (jsOrNat input.limit 10) 20) env.arxiv).2 with
      | error msg => simpa [hc] using hg
      | ok papers => simp only [hc]; exact goodMap_insertPapers _ _ _ hg
    · split
      · cases hd : env.details with
        | some paper =>
          simp only [hd]
          split
          · simpa using hg
          · rename_i hk
            simp only [Bool.not_eq_true] at hk
            exact goodMap_mapSet_fresh collected paper hg (by simpa using hk)
        | none => simpa [hd] using hg
      · split
        · simpa using hg
        · simpa using hg

theorem executeTool_requests (name : String) (input : ToolArgs) (env : ToolEnv)
    (collected : CollectedMap) :
    ∀ r ∈ (executeTool name input env collected).requests,
      r = ⟨input.query, min (jsOrNat input.limit 10) 20⟩ := by
  intro r hr
  unfold executeTool at hr
  split at hr
  · cases hc : (searchSemanticScholar input.query (min (jsOrNat input.limit 10) 20) env.s2).2 <;>
      simp only [hc] at hr <;> simp at hr <;> exact hr
  · split at hr
    · cases hc : (searchArxiv input.query (min (jsOrNat input.limit 10) 20) env.arxiv).2 <;>
        simp only [hc] at hr <;> simp at hr <;> exact hr
    · split at hr
      · cases hd : env.details with
        | some paper =>
          simp only [hd] at hr
          split at hr <;> simp at hr
        | none => simp only [hd] at hr; simp at hr
      · split at hr <;> simp at hr

theorem executeTool_count_data (name : String) (input : ToolArgs) (env : ToolEnv)
    (collected : CollectedMap) :
    ∀ e ∈ (executeTool name input env collected).events, e.type = EventType.papers_count →
      e.data = EventData.num (mapSize (executeTool name input env collected).collected) := by
  intro e
  unfold executeTool
  split
  · cases hc : (searchSemanticScholar input.query (min (jsOrNat input.limit 10) 20) env.s2).2 with
    | error msg =>
      simp only [hc]
      intro he ht
      simp at he
      subst he
      exact absurd ht (by simp)
    | ok papers =>
      simp only [hc]
      intro he ht
      simp at he
      rcases he with h | h | h
      · subst h; exact absurd ht (by simp)
      · have := insertPapers_events _ _ _ e h
        rw [this] at ht
        exact absurd ht (by simp)
      · subst h; simp
  · split
    · cases hc : (searchArxiv input.query (min (jsOrNat input.limit 10) 20) env.arxiv).2 with
      | error msg =>
        simp only [hc]
        intro he ht
        simp at he
        subst he
        exact absurd ht (by simp)
      | ok papers =>
        simp only [hc]
        intro he ht
        simp at he
        rcases he with h | h | h
        · subst h; exact absurd ht (by simp)
        · have := insertPapers_events _ _ _ e h
          rw [this] at ht
          exact absurd ht (by simp)
        · subst h; simp
    · split
      · cases hd : env.details with
        | some paper =>
          simp only [hd]
          split
          · intro he ht
            simp at he
            subst he
            exact absurd ht (by simp)
          · intro he ht
            simp at he
            rcases he with h | h | h
            · subst h; exact absurd ht (by simp)
            · subst h; exact absurd ht (by simp)
            · subst h; simp
        | none =>
          simp only [hd]
          intro he ht
          simp at he
          subst he
          exact absurd ht (by simp)
      · split
        · intro he ht
          simp at he
          subst he
          exact absurd ht (by simp)
        · intro he
          simp at he

theorem countsOf_append (a b : List AgentEvent) :
    countsOf (a ++ b) = countsOf a ++ countsOf b := by
  simp [countsOf]

theorem countsOf_single_status (d : EventData) :
    countsOf [⟨EventType.status, d⟩] = [] := rfl

theorem dispatchTools_counts (env : AgentEnv) (iterNum : Nat) :
    ∀ (blocks : List (String × String × ToolArgs)) (c : CollectedMap) (t k : Nat),
      CountsOk (mapSize c)
        (countsOf (dispatchTools env iterNum blocks c t k).events)
        (mapSize (dispatchTools env iterNum blocks c t k).collected) := by
  intro blocks
  induction blocks with
  | nil =>
    intro c t k
    simp [dispatchTools, countsOf, countsOk_refl]
  | cons b rest ih =>
    intro c t k
    obtain ⟨bid, bname, binput⟩ := b
    rw [dispatchTools]
    split
    · simp [countsOf, cancelEv, countsOk_refl]
    · have h1 := executeTool_counts bname binput (env.tool t) c
      have h2 := ih (executeTool bname binput (env.tool t) c).collected (t + 1) (k + 1)
      cases hres : (executeTool bname binput (env.tool t) c).result with
      | ok s =>
        simp only [hres, countsOf_append]
        rw [show countsOf ([] : List AgentEvent) = [] from rfl, List.append_nil]
        exact countsOk_append h1 h2
      | error msg =>
        simp only [hres, countsOf_append, countsOf_single_status]
        rw [List.append_nil]
        exact countsOk_append h1 h2

theorem dispatchTools_events_ok (env : AgentEnv) (iterNum : Nat) :
    ∀ (blocks : List (String × String × ToolArgs)) (c : CollectedMap) (t k : Nat),
      (dispatchTools env iterNum blocks c t k).cancelled = false →
      ∀ e ∈ (dispatchTools env iterNum blocks c t k).events, searchEv e := by
  intro blocks
  induction blocks with
  | nil =>
    intro c t k _ e he
    simp [dispatchTools] at he
  | cons b rest ih =>
    intro c t k hcanc e he
    obtain ⟨bid, bname, binput⟩ := b
    rw [dispatchTools] at hcanc he
    split at he
    · simp at hcanc
      exact absurd hcanc (by simp_all)
    · rename_i hab
      simp only [hab] at hcanc
      cases hres : (executeTool bname binput (env.tool t) c).result with
      | ok s =>
        simp only [hres] at he hcanc
        simp at he
        rcases he with h | h
        · exact executeTool_events _ _ _ _ e h
        · exact ih _ (t + 1) (k + 1) hcanc e h
      | error msg =>
        simp only [hres] at he hcanc
        simp at he
        rcases he with h | h | h
        · exact executeTool_events _ _ _ _ e h
        · subst h; exact Or.inl rfl
        · exact ih _ (t + 1) (k + 1) hcanc e h

theorem dispatchTools_events_cancel (env : AgentEnv) (iterNum : Nat) :
    ∀ (blocks : List (String × String × ToolArgs)) (c : CollectedMap) (t k : Nat),
      (dispatchTools env iterNum blocks c t k).cancelled = true →
      ∃ pre, (dispatchTools env iterNum blocks c t k).events = pre ++ [cancelEv] ∧
        ∀ e ∈ pre, searchEv e := by
  intro blocks
  induction blocks with
  | nil =>
    intro c t k hcanc
    simp [dispatchTools] at hcanc
  | cons b rest ih =>
    intro c t k hcanc
    obtain ⟨bid, bname, binput⟩ := b
    rw [dispatchTools] at hcanc ⊢
    split
    · exact ⟨[], rfl, by simp⟩
    · rename_i hab
      simp only [hab] at hcanc
      cases hres : (executeTool bname binput (env.tool t) c).result with
      | ok s =>
        simp only [hres] at hcanc ⊢
        obtain ⟨pre, hpre, hall⟩ := ih _ (t + 1) (k + 1) hcanc
        refine ⟨(executeTool bname binput (env.tool t) c).events ++ [] ++ pre, ?_, ?_⟩
        · simp [hpre]
        · intro e he
          simp at he
          rcases he with h | h
          · exact executeTool_events _ _ _ _ e h
          · exact hall e h
      | error msg =>
        simp only [hres] at hcanc ⊢
        obtain ⟨pre, hpre, hall⟩ := ih _ (t + 1) (k + 1) hcanc
        refine ⟨(executeTool bname binput (env.tool t) c).events
          ++ [⟨.status, .str ("Warning: " ++ bname ++ " failed — " ++ msg ++ ". Continuing...")⟩]
          ++ pre, ?_, ?_⟩
        · simp [hpre]
        · intro e he
          simp at he
          rcases he with h | h | h
          · exact executeTool_events _ _ _ _ e h
          · subst h; exact Or.inl rfl
          · exact hall e h

theorem dispatchTools_check_mono (env : AgentEnv) (iterNum : Nat) :
    ∀ (blocks : List (String × String × ToolArgs)) (c : CollectedMap) (t k : Nat),
      k ≤ (dispatchTools env iterNum blocks c t k).nextCheckIdx := by
  intro blocks
  induction blocks with
  | nil => intro c t k; simp [dispatchTools]
  | cons b rest ih =>
    intro c t k
    obtain ⟨bid, bname, binput⟩ := b
    rw [dispatchTools]
    split
    · simp
    · cases hres : (executeTool bname binput (env.tool t) c).result <;>
        simp only [hres] <;>
        exact le_trans (Nat.le_succ k) (ih _ (t + 1) (k + 1))

theorem dispatchTools_polls (env : AgentEnv) (iterNum : Nat) :
    ∀ (blocks : List (String × String × ToolArgs)) (c : CollectedMap) (t k : Nat),
      (dispatchTools env iterNum blocks c t k).cancelled = false →
      ∀ j, k ≤ j → j < (dispatchTools env iterNum blocks c t k).nextCheckIdx →
        env.aborted j = false := by
  intro blocks
  induction blocks with
  | nil =>
    intro c t k _ j hj1 hj2
    simp [dispatchTools] at hj2
    omega
  | cons b rest ih =>
    intro c t k hcanc j hj1 hj2
    obtain ⟨bid, bname, binput⟩ := b
    rw [dispatchTools] at hcanc hj2
    cases hab : env.aborted k with
    | true => simp [hab] at hcanc
    | false =>
      simp only [hab, Bool.false_eq_true, if_false] at hcanc hj2
      rcases Nat.eq_or_lt_of_le hj1 with h | h
      · subst h; exact hab
      · exact ih _ (t + 1) (k + 1) hcanc j h hj2

theorem dispatchTools_dispatched (env : AgentEnv) (iterNum : Nat) :
    ∀ (blocks : List (String × String × ToolArgs)) (c : CollectedMap) (t k : Nat),
      ∀ x ∈ (dispatchTools env iterNum blocks c t k).dispatched, x.1 = iterNum := by
  intro blocks
  induction blocks with
  | nil =>
    intro c t k x hx
    simp [dispatchTools] at hx
  | cons b rest ih =>
    intro c t k x hx
    obtain ⟨bid, bname, binput⟩ := b
    rw [dispatchTools] at hx
    split at hx
    · simp at hx
    · cases hres : (executeTool bname binput (env.tool t) c).result <;>
        simp only [hres] at hx <;>
        rcases List.mem_cons.mp hx with h | h
      · subst h; rfl
      · exact ih _ (t + 1) (k + 1) x h
      · subst h; rfl
      · exact ih _ (t + 1) (k + 1) x h

theorem dispatchTools_goodMap (env : AgentEnv) (iterNum : Nat) :
    ∀ (blocks : List (String × String × ToolArgs)) (c : CollectedMap) (t k : Nat),
      goodMap c → goodMap (dispatchTools env iterNum blocks c t k).collected := by
  intro blocks
  induction blocks with
  | nil =>
    intro c t k hg
    simpa [dispatchTools] using hg
  | cons b rest ih =>
    intro c t k hg
    obtain ⟨bid, bname, binput⟩ := b
    rw [dispatchTools]
    split
    · simpa using hg
    · cases hres : (executeTool bname binput (env.tool t) c).result <;>
        simp only [hres] <;>
        exact ih _ (t + 1) (k + 1) (goodMap_executeTool bname binput (env.tool t) c hg)

theorem thinkEvents_thinking (tB : List String) :
    ∀ e ∈ thinkEvents tB, e.type = EventType.thinking := by
  intro e he
  obtain ⟨s, _, hf⟩ := List.mem_filterMap.mp he
  split at hf
  · exact absurd hf (by simp)
  · obtain rfl := Option.some_injective _ hf
    rfl

theorem searchLoop_llmCalls_le (env : AgentEnv) :
    ∀ fuel iterations toolIdx checkIdx messages collected,
      (searchLoop env fuel iterations toolIdx checkIdx messages collected).llmCalls
        ≤ iterations + fuel := by
  intro fuel
  induction fuel with
  | zero =>
    intro it t k m c
    simp [searchLoop]
  | succ fuel ih =>
    intro it t k m c
    rw [searchLoop]
    cases hab : env.aborted k with
    | true =>
      simp only [if_true]
      omega
    | false =>
      simp only [Bool.false_eq_true, if_false]
      cases hllm : env.llm it with
      | failed msg =>
        simp only []
        omega
      | ok resp =>
        simp only []
        split
        · simp only []
          omega
        · split
          · have h := ih (it + 1) t (k + 1)
              (m ++ [⟨"assistant", .blocks resp.content⟩, nudgeMsg]) c
            simp only [withPre]
            omega
          · split
            · simp only []
              omega
            · have h := ih (it + 1)
                (dispatchTools env (it + 1) (toolUses resp.content) c t (k + 1)).nextToolIdx
                (dispatchTools env (it + 1) (toolUses resp.content) c t (k + 1)).nextCheckIdx
                (m ++ [⟨"assistant", .blocks resp.content⟩,
                  ⟨"user", .toolResults (dispatchTools env (it + 1) (toolUses resp.content) c t (k + 1)).results⟩])
                (dispatchTools env (it + 1) (toolUses resp.content) c t (k + 1)).collected
              simp only []
              omega

theorem searchLoop_shape (env : AgentEnv) :
    ∀ fuel it t k m c,
      (((searchLoop env fuel it t k m c).exit = SearchExit.finished ∨
        (searchLoop env fuel it t k m c).exit = SearchExit.exhausted) →
        ∀ e ∈ (searchLoop env fuel it t k m c).events, searchEv e) ∧
      ((searchLoop env fuel it t k m c).exit = SearchExit.cancelled →
        ∃ pre, (searchLoop env fuel it t k m c).events = pre ++ [cancelEv] ∧
          ∀ e ∈ pre, searchEv e) ∧
      (∀ msg, (searchLoop env fuel it t k m c).exit = SearchExit.apiFailed msg →
        ∃ pre, (searchLoop env fuel it t k m c).events
            = pre ++ [⟨EventType.error, EventData.str ("API error: " ++ msg)⟩] ∧
          ∀ e ∈ pre, searchEv e) := by
  intro fuel
  induction fuel with
  | zero =>
    intro it t k m c
    refine ⟨?_, ?_, ?_⟩ <;> simp [searchLoop]
  | succ fuel ih =>
    intro it t k m c
    rw [searchLoop]
    cases hab : env.aborted k with
    | true =>
      simp only [if_true]
      refine ⟨by simp, fun _ => ⟨[], rfl, by simp⟩, by simp⟩
    | false =>
      simp only [Bool.false_eq_true, if_false]
      cases hllm : env.llm it with
      | failed msg =>
        simp only []
        refine ⟨by simp, by simp, ?_⟩
        intro msg2 hmsg
        simp at hmsg
        subst hmsg
        exact ⟨[stepStatusEv (it + 1)], rfl, by intro e he; simp at he; subst he; exact Or.inl rfl⟩
      | ok resp =>
        simp only []
        split
        · refine ⟨?_, by simp, by simp⟩
          intro _ e he
          simp at he
          rcases he with h | h | h
          · subst h; exact Or.inl rfl
          · exact Or.inr (Or.inl (thinkEvents_thinking _ e h))
          · subst h; exact Or.inl rfl
        · split
          · have hrec := ih (it + 1) t (k + 1)
              (m ++ [⟨"assistant", .blocks resp.content⟩, nudgeMsg]) c
            simp only [withPre]
            refine ⟨?_, ?_, ?_⟩
            · intro hex e he
              simp at he
              rcases he with h | h | h
              · subst h; exact Or.inl rfl
              · exact Or.inr (Or.inl (thinkEvents_thinking _ e h))
              · exact hrec.1 hex e h
            · intro hex
              obtain ⟨pre, hpre, hall⟩ := hrec.2.1 hex
              refine ⟨stepStatusEv (it + 1) :: thinkEvents (textBlocks resp.content) ++ pre, ?_, ?_⟩
              · simp [hpre]
              · intro e he
                simp at he
                rcases he with h | h | h
                · subst h; exact Or.inl rfl
                · exact Or.inr (Or.inl (thinkEvents_thinking _ e h))
                · exact hall e h
            · intro msg hex
              obtain ⟨pre, hpre, hall⟩ := hrec.2.2 msg hex
              refine ⟨stepStatusEv (it + 1) :: thinkEvents (textBlocks resp.content) ++ pre, ?_, ?_⟩
              · simp [hpre]
              · intro e he
                simp at he
                rcases he with h | h | h
                · subst h; exact Or.inl rfl
                · exact Or.inr (Or.inl (thinkEvents_thinking _ e h))
                · exact hall e h
          · split
            · rename_i hdc
              refine ⟨by simp, ?_, by simp⟩
              intro _
              obtain ⟨pre, hpre, hall⟩ :=
                dispatchTools_events_cancel env (it + 1) (toolUses resp.content) c t (k + 1) hdc
              refine ⟨stepStatusEv (it + 1) :: thinkEvents (textBlocks resp.content) ++ pre, ?_, ?_⟩
              · simp [hpre]
              · intro e he
                simp at he
                rcases he with h | h | h
                · subst h; exact Or.inl rfl
                · exact Or.inr (Or.inl (thinkEvents_thinking _ e h))
                · exact hall e h
            · rename_i hdc
              have hdcf : (dispatchTools env (it + 1) (toolUses resp.content) c t (k + 1)).cancelled
                  = false := by
                revert hdc
                cases (dispatchTools env (it + 1) (toolUses resp.content) c t (k + 1)).cancelled <;>
                  simp
              have hrec := ih (it + 1)
                (dispatchTools env (it + 1) (toolUses resp.content) c t (k + 1)).nextToolIdx
                (dispatchTools env (it + 1) (toolUses resp.content) c t (k + 1)).nextCheckIdx
                (m ++ [⟨"assistant", .blocks resp.content⟩,
                  ⟨"user", .toolResults (dispatchTools env (it + 1) (toolUses resp.content) c t (k + 1)).results⟩])
                (dispatchTools env (it + 1) (toolUses resp.content) c t (k + 1)).collected
              have hdev := dispatchTools_events_ok env (it + 1) (toolUses resp.content) c t (k + 1) hdcf
              simp only []
              refine ⟨?_, ?_, ?_⟩
              · intro hex e he
                simp at he
                rcases he with h | h | h | h
                · subst h; exact Or.inl rfl
                · exact Or.inr (Or.inl (thinkEvents_thinking _ e h))
                · exact hdev e h
                · exact hrec.1 hex e h
              · intro hex
                obtain ⟨pre, hpre, hall⟩ := hrec.2.1 hex
                refine ⟨stepStatusEv (it + 1) :: thinkEvents (textBlocks resp.content)
                  ++ (dispatchTools env (it + 1) (toolUses resp.content) c t (k + 1)).events
                  ++ pre, ?_, ?_⟩
                · simp [hpre]
                · intro e he
                  simp at he
                  rcases he with h | h | h | h
                  · subst h; exact Or.inl rfl
                  · exact Or.inr (Or.inl (thinkEvents_thinking _ e h))
                  · exact hdev e h
                  · exact hall e h
              · intro msg hex
                obtain ⟨pre, hpre, hall⟩ := hrec.2.2 msg hex
                refine ⟨stepStatusEv (it + 1) :: thinkEvents (textBlocks resp.content)
                  ++ (dispatchTools env (it + 1) (toolUses resp.content) c t (k + 1)).events
                  ++ pre, ?_, ?_⟩
                · simp [hpre]
                · intro e he
                  simp at he
                  rcases he with h | h | h | h
                  · subst h; exact Or.inl rfl
                  · exact Or.inr (Or.inl (thinkEvents_thinking _ e h))
                  · exact hdev e h
                  · exact hall e h

theorem countsOf_thinkEvents (tB : List String) : countsOf (thinkEvents tB) = [] :=
  countsOf_nil_of _ fun e he => by
    rw [thinkEvents_thinking tB e he]
    intro hc
    exact absurd hc (by simp)

theorem searchLoop_polls (env : AgentEnv) :
    ∀ fuel it t k m c,
      k ≤ (searchLoop env fuel it t k m c).nextCheckIdx ∧
      ((searchLoop env fuel it t k m c).exit ≠ SearchExit.cancelled →
        ∀ j, k ≤ j → j < (searchLoop env fuel it t k m c).nextCheckIdx →
          env.aborted j = false) := by
  intro fuel
  induction fuel with
  | zero =>
    intro it t k m c
    refine ⟨?_, ?_⟩ <;> simp [searchLoop]
    omega
  | succ fuel ih =>
    intro it t k m c
    rw [searchLoop]
    cases hab : env.aborted k with
    | true =>
      simp only [if_true]
      exact ⟨Nat.le_succ k, by simp⟩
    | false =>
      simp only [Bool.false_eq_true, if_false]
      cases hllm : env.llm it with
      | failed msg =>
        simp only []
        refine ⟨Nat.le_succ k, ?_⟩
        intro _ j hj1 hj2
        have : j = k := by omega
        subst this
        exact hab
      | ok resp =>
        simp only []
        split
        · simp only []
          refine ⟨Nat.le_succ k, ?_⟩
          intro _ j hj1 hj2
          have : j = k := by omega
          subst this
          exact hab
        · split
          · have hrec := ih (it + 1) t (k + 1)
              (m ++ [⟨"assistant", .blocks resp.content⟩, nudgeMsg]) c
            simp only [withPre]
            refine ⟨le_trans (Nat.le_succ k) hrec.1, ?_⟩
            intro hex j hj1 hj2
            rcases Nat.eq_or_lt_of_le hj1 with h | h
            · subst h; exact hab
            · exact hrec.2 hex j h hj2
          · split
            · rename_i hdc
              simp only []
              exact ⟨le_trans (Nat.le_succ k)
                (dispatchTools_check_mono env (it + 1) (toolUses resp.content) c t (k + 1)),
                by simp⟩
            · rename_i hdc
              have hdcf : (dispatchTools env (it + 1) (toolUses resp.content) c t (k + 1)).cancelled
                  = false := by
                revert hdc
                cases (dispatchTools env (it + 1) (toolUses resp.content) c t (k + 1)).cancelled <;>
                  simp
              have hrec := ih (it + 1)
                (dispatchTools env (it + 1) (toolUses resp.content) c t (k + 1)).nextToolIdx
                (dispatchTools env (it + 1) (toolUses resp.content) c t (k + 1)).nextCheckIdx
                (m ++ [⟨"assistant", .blocks resp.content⟩,
                  ⟨"user", .toolResults (dispatchTools env (it + 1) (toolUses resp.content) c t (k + 1)).results⟩])
                (dispatchTools env (it + 1) (toolUses resp.content) c t (k + 1)).collected
              have hdm := dispatchTools_check_mono env (it + 1) (toolUses resp.content) c t (k + 1)
              simp only []
              refine ⟨le_trans (Nat.le_succ k) (le_trans hdm hrec.1), ?_⟩
              intro hex j hj1 hj2
              rcases Nat.eq_or_lt_of_le hj1 with h | h
              · subst h; exact hab
              · by_cases hj : j < (dispatchTools env (it + 1) (toolUses resp.content) c t (k + 1)).nextCheckIdx
                · exact dispatchTools_polls env (it + 1) (toolUses resp.content) c t (k + 1) hdcf j h hj
                · exact hrec.2 hex j (by omega) hj2

theorem searchLoop_counts (env : AgentEnv) :
    ∀ fuel it t k m c,
      CountsOk (mapSize c) (countsOf (searchLoop env fuel it t k m c).events)
        (mapSize (searchLoop env fuel it t k m c).collected) := by
  intro fuel
  induction fuel with
  | zero =>
    intro it t k m c
    simp [searchLoop, countsOf, countsOk_refl]
  | succ fuel ih =>
    intro it t k m c
    rw [searchLoop]
    cases hab : env.aborted k with
    | true =>
      simp only [if_true]
      exact countsOk_refl _
    | false =>
      simp only [Bool.false_eq_true, if_false]
      cases hllm : env.llm it with
      | failed msg =>
        simp only []
        exact countsOk_refl _
      | ok resp =>
        simp only []
        split
        · simp only []
          rw [show stepStatusEv (it + 1) :: thinkEvents (textBlocks resp.content) ++ [searchDoneEv c]
            = [stepStatusEv (it + 1)] ++ thinkEvents (textBlocks resp.content) ++ [searchDoneEv c]
            from rfl]
          rw [countsOf_append, countsOf_append, countsOf_thinkEvents]
          rw [show countsOf [stepStatusEv (it + 1)] = [] from rfl]
          rw [show countsOf [searchDoneEv c] = [] from rfl]
          exact countsOk_refl _
        · split
          · have hrec := ih (it + 1) t (k + 1)
              (m ++ [⟨"assistant", .blocks resp.content⟩, nudgeMsg]) c
            simp only [withPre]
            rw [show stepStatusEv (it + 1) :: thinkEvents (textBlocks resp.content)
                ++ (searchLoop env fuel (it + 1) t (k + 1)
                  (m ++ [⟨"assistant", .blocks resp.content⟩, nudgeMsg]) c).events
              = [stepStatusEv (it + 1)] ++ (thinkEvents (textBlocks resp.content)
                ++ (searchLoop env fuel (it + 1) t (k + 1)
                  (m ++ [⟨"assistant", .blocks resp.content⟩, nudgeMsg]) c).events)
              from rfl]
            rw [countsOf_append, countsOf_append, countsOf_thinkEvents]
            rw [show countsOf [stepStatusEv (it + 1)] = [] from rfl]
            exact hrec
          · split
            · rename_i hdc
              have hd := dispatchTools_counts env (it + 1) (toolUses resp.content) c t (k + 1)
              simp only []
              rw [show stepStatusEv (it + 1) :: thinkEvents (textBlocks resp.content)
                  ++ (dispatchTools env (it + 1) (toolUses resp.content) c t (k + 1)).events
                = [stepStatusEv (it + 1)] ++ (thinkEvents (textBlocks resp.content)
                  ++ (dispatchTools env (it + 1) (toolUses resp.content) c t (k + 1)).events)
                from rfl]
              rw [countsOf_append, countsOf_append, countsOf_thinkEvents]
              rw [show countsOf [stepStatusEv (it + 1)] = [] from rfl]
              exact hd
            · have hd := dispatchTools_counts env (it + 1) (toolUses resp.content) c t (k + 1)
              have hrec := ih (it + 1)
                (dispatchTools env (it + 1) (toolUses resp.content) c t (k + 1)).nextToolIdx
                (dispatchTools env (it + 1) (toolUses resp.content) c t (k + 1)).nextCheckIdx
                (m ++ [⟨"assistant", .blocks resp.content⟩,
                  ⟨"user", .toolResults (dispatchTools env (it + 1) (toolUses resp.content) c t (k + 1)).results⟩])
                (dispatchTools env (it + 1) (toolUses resp.content) c t (k + 1)).collected
              simp only []
              rw [show stepStatusEv (it + 1) :: thinkEvents (textBlocks resp.content)
                  ++ (dispatchTools env (it + 1) (toolUses resp.content) c t (k + 1)).events
                  ++ (searchLoop env fuel (it + 1)
                    (dispatchTools env (it + 1) (toolUses resp.content) c t (k + 1)).nextToolIdx
                    (dispatchTools env (it + 1) (toolUses resp.content) c t (k + 1)).nextCheckIdx
                    (m ++ [⟨"assistant", .blocks resp.content⟩,
                      ⟨"user", .toolResults (dispatchTools env (it + 1) (toolUses resp.content) c t (k + 1)).results⟩])
                    (dispatchTools env (it + 1) (toolUses resp.content) c t (k + 1)).collected).events
                = [stepStatusEv (it + 1)] ++ thinkEvents (textBlocks resp.content)
                  ++ ((dispatchTools env (it + 1) (toolUses resp.content) c t (k + 1)).events
                  ++ (searchLoop env fuel (it + 1)
                    (dispatchTools env (it + 1) (toolUses resp.content) c t (k + 1)).nextToolIdx
                    (dispatchTools env (it + 1) (toolUses resp.content) c t (k + 1)).nextCheckIdx
                    (m ++ [⟨"assistant", .blocks resp.content⟩,
                      ⟨"user", .toolResults (dispatchTools env (it + 1) (toolUses resp.content) c t (k + 1)).results⟩])
                    (dispatchTools env (it + 1) (toolUses resp.content) c t (k + 1)).collected).events)
                from by simp]
              rw [countsOf_append, countsOf_append, countsOf_append, countsOf_thinkEvents]
              rw [show countsOf [stepStatusEv (it + 1)] = [] from rfl]
              simp only [List.nil_append, List.append_nil]
              exact countsOk_append hd hrec

theorem searchLoop_sentinel (env : AgentEnv) :
    ∀ fuel it t k m c kk resp,
      it ≤ kk →
      env.llm kk = LLMOutcome.ok resp →
      strIncludes (String.intercalate "\n" (textBlocks resp.content)) sentinel = true →
      kk + 1 ≤ (searchLoop env fuel it t k m c).llmCalls →
      (searchLoop env fuel it t k m c).llmCalls = kk + 1 ∧
      ∀ d ∈ (searchLoop env fuel it t k m c).dispatches, d.1 ≤ kk := by
  intro fuel
  induction fuel with
  | zero =>
    intro it t k m c kk resp hik hllmk hsent hle
    simp [searchLoop] at hle
    omega
  | succ fuel ih =>
    intro it t k m c kk resp hik hllmk hsent hle
    revert hle
    rw [searchLoop]
    cases hab : env.aborted k with
    | true =>
      simp only [if_true]
      intro hle
      have hle2 : kk + 1 ≤ it := hle
      omega
    | false =>
      simp only [Bool.false_eq_true, if_false]
      cases hllm : env.llm it with
      | failed msg =>
        simp only []
        intro hle
        have hle2 : kk + 1 ≤ it + 1 := hle
        rcases Nat.eq_or_lt_of_le hik with heq | hlt
        · subst heq
          rw [hllm] at hllmk
          exact absurd hllmk (by simp)
        · omega
      | ok resp2 =>
        simp only []
        by_cases hcond : (strIncludes (String.intercalate "\n" (textBlocks resp2.content)) sentinel
            || ((toolUses resp2.content).isEmpty && decide (it + 1 ≥ 3))
            || (resp2.stopReason == "end_turn" && (toolUses resp2.content).isEmpty)) = true
        · rw [if_pos hcond]
          intro hle
          have hle2 : kk + 1 ≤ it + 1 := hle
          exact ⟨(by omega : it + 1 = kk + 1), by simp⟩
        · rw [if_neg hcond]
          have hne : it ≠ kk := by
            intro heq
            subst heq
            rw [hllm] at hllmk
            injection hllmk with hr
            subst hr
            rw [hsent] at hcond
            simp at hcond
          have hlt : it < kk := by omega
          by_cases hcond2 : (toolUses resp2.content).isEmpty = true
          · rw [if_pos hcond2]
            simp only [withPre]
            intro hle
            exact ih (it + 1) t (k + 1)
              (m ++ [⟨"assistant", .blocks resp2.content⟩, nudgeMsg]) c kk resp hlt hllmk hsent hle
          · rw [if_neg hcond2]
            by_cases hdc : (dispatchTools env (it + 1) (toolUses resp2.content) c t (k + 1)).cancelled
                = true
            · rw [if_pos hdc]
              intro hle
              simp only [] at hle
              omega
            · rw [if_neg hdc]
              intro hle
              simp only [] at hle
              have hrec := ih (it + 1)
                (dispatchTools env (it + 1) (toolUses resp2.content) c t (k + 1)).nextToolIdx
                (dispatchTools env (it + 1) (toolUses resp2.content) c t (k + 1)).nextCheckIdx
                (m ++ [⟨"assistant", .blocks resp2.content⟩,
                  ⟨"user", .toolResults (dispatchTools env (it + 1) (toolUses resp2.content) c t (k + 1)).results⟩])
                (dispatchTools env (it + 1) (toolUses resp2.content) c t (k + 1)).collected
                kk resp hlt hllmk hsent hle
              refine ⟨hrec.1, ?_⟩
              intro d hd
              rcases List.mem_append.mp hd with h | h
              · rw [dispatchTools_dispatched env (it + 1) (toolUses resp2.content) c t (k + 1) d h]
                omega
              · exact hrec.2 d h

theorem synthItemsLoop_shape (env : AgentEnv) :
    ∀ items k,
      ((synthItemsLoop env items k).2.2 = false →
        ∀ e ∈ (synthItemsLoop env items k).1, e.type = EventType.review_chunk) ∧
      ((synthItemsLoop env items k).2.2 = true →
        ∃ pre, (synthItemsLoop env items k).1 = pre ++ [cancelEv] ∧
          ∀ e ∈ pre, e.type = EventType.review_chunk) ∧
      k ≤ (synthItemsLoop env items k).2.1 ∧
      ((synthItemsLoop env items k).2.2 = false →
        ∀ j, k ≤ j → j < (synthItemsLoop env items k).2.1 → env.aborted j = false) := by
  intro items
  induction items with
  | nil =>
    intro k
    refine ⟨by simp [synthItemsLoop], by simp [synthItemsLoop], le_refl k, ?_⟩
    intro _ j hj1 hj2
    simp [synthItemsLoop] at hj2
    omega
  | cons item rest ih =>
    intro k
    rw [synthItemsLoop]
    cases hab : env.aborted k with
    | true =>
      simp only [if_true]
      refine ⟨by simp, fun _ => ⟨[], rfl, by simp⟩, Nat.le_succ k, by simp⟩
    | false =>
      simp only [Bool.false_eq_true, if_false]
      have hrec := ih (k + 1)
      cases item with
      | textDelta s =>
        simp only []
        refine ⟨?_, ?_, le_trans (Nat.le_succ k) hrec.2.2.1, ?_⟩
        · intro hc e he
          rcases List.mem_cons.mp he with h | h
          · subst h; rfl
          · exact hrec.1 hc e h
        · intro hc
          obtain ⟨pre, hpre, hall⟩ := hrec.2.1 hc
          refine ⟨⟨EventType.review_chunk, EventData.str s⟩ :: pre, by simp [hpre], ?_⟩
          intro e he
          rcases List.mem_cons.mp he with h | h
          · subst h; rfl
          · exact hall e h
        · intro hc j hj1 hj2
          rcases Nat.eq_or_lt_of_le hj1 with h | h
          · subst h; exact hab
          · exact hrec.2.2.2 hc j h hj2
      | other =>
        simp only []
        refine ⟨hrec.1, hrec.2.1, le_trans (Nat.le_succ k) hrec.2.2.1, ?_⟩
        intro hc j hj1 hj2
        rcases Nat.eq_or_lt_of_le hj1 with h | h
        · subst h; exact hab
        · exact hrec.2.2.2 hc j h hj2

theorem synthPhase_cancel_shape (env : AgentEnv) (k : Nat) (coll : CollectedMap)
    (hc : (synthPhase env k coll).2.2 = RunOutcome.cancelled) :
    ∃ pre, (synthPhase env k coll).1 = pre ++ [cancelEv] ∧
      ∀ e ∈ pre, e.type = EventType.review_chunk := by
  have hs := synthItemsLoop_shape env env.synth.items k
  unfold synthPhase at hc ⊢
  cases hcanc : (synthItemsLoop env env.synth.items k).2.2 with
  | true =>
    simp only [hcanc, if_true] at hc ⊢
    exact hs.2.1 hcanc
  | false =>
    simp only [hcanc, Bool.false_eq_true, if_false] at hc ⊢
    cases hfin : env.synth.final with
    | ok u =>
      rw [hfin] at hc
      simp at hc
    | error msg =>
      rw [hfin] at hc
      simp only [] at hc ⊢
      cases hab2 : env.aborted (synthItemsLoop env env.synth.items k).2.1 with
      | true =>
        simp only [hab2, if_true]
        exact ⟨(synthItemsLoop env env.synth.items k).1, rfl, hs.1 hcanc⟩
      | false =>
        rw [hab2] at hc
        simp at hc

theorem synthPhase_polls (env : AgentEnv) (k : Nat) (coll : CollectedMap)
    (hnc : (synthPhase env k coll).2.2 ≠ RunOutcome.cancelled) :
    ∀ j, k ≤ j → j < (synthPhase env k coll).2.1 → env.aborted j = false := by
  have hs := synthItemsLoop_shape env env.synth.items k
  unfold synthPhase at hnc ⊢
  cases hcanc : (synthItemsLoop env env.synth.items k).2.2 with
  | true =>
    simp only [hcanc, if_true] at hnc
    simp at hnc
  | false =>
    simp only [hcanc, Bool.false_eq_true, if_false] at hnc ⊢
    cases hfin : env.synth.final with
    | ok u =>
      simp only []
      intro j hj1 hj2
      exact hs.2.2.2 hcanc j hj1 hj2
    | error msg =>
      rw [hfin] at hnc
      simp only [] at hnc ⊢
      cases hab2 : env.aborted (synthItemsLoop env env.synth.items k).2.1 with
      | true => simp only [hab2, if_true] at hnc; simp at hnc
      | false =>
        simp only [hab2, Bool.false_eq_true, if_false]
        intro j hj1 hj2
        rcases Nat.lt_or_ge j (synthItemsLoop env env.synth.items k).2.1 with h | h
        · exact hs.2.2.2 hcanc j hj1 h
        · have : j = (synthItemsLoop env env.synth.items k).2.1 := by omega
          subst this
          exact hab2

theorem synthPhase_event_types (env : AgentEnv) (k : Nat) (coll : CollectedMap) :
    ∀ e ∈ (synthPhase env k coll).1,
      e.type = EventType.review_chunk ∨ e.type = EventType.complete ∨
        e.type = EventType.error := by
  have hs := synthItemsLoop_shape env env.synth.items k
  unfold synthPhase
  cases hcanc : (synthItemsLoop env env.synth.items k).2.2 with
  | true =>
    simp only [hcanc, if_true]
    intro e he
    obtain ⟨pre, hpre, hall⟩ := hs.2.1 hcanc
    rw [hpre] at he
    rcases List.mem_append.mp he with h | h
    · exact Or.inl (hall e h)
    · simp at h; subst h; exact Or.inr (Or.inr rfl)
  | false =>
    simp only [hcanc, Bool.false_eq_true, if_false]
    cases hfin : env.synth.final with
    | ok u =>
      simp only []
      intro e he
      rcases List.mem_append.mp he with h | h
      · exact Or.inl (hs.1 hcanc e h)
      · simp at h; subst h; exact Or.inr (Or.inl rfl)
    | error msg =>
      simp only []
      cases hab2 : env.aborted (synthItemsLoop env env.synth.items k).2.1 with
      | true =>
        simp only [hab2, if_true]
        intro e he
        rcases List.mem_append.mp he with h | h
        · exact Or.inl (hs.1 hcanc e h)
        · simp at h; subst h; exact Or.inr (Or.inr rfl)
      | false =>
        simp only [hab2, Bool.false_eq_true, if_false]
        intro e he
        rcases List.mem_append.mp he with h | h
        · exact Or.inl (hs.1 hcanc e h)
        · simp at h; subst h; exact Or.inr (Or.inr rfl)

theorem synthPhase_check_mono (env : AgentEnv) (k : Nat) (coll : CollectedMap) :
    k ≤ (synthPhase env k coll).2.1 := by
  have hs := synthItemsLoop_shape env env.synth.items k
  unfold synthPhase
  cases hcanc : (synthItemsLoop env env.synth.items k).2.2 with
  | true => simp only [hcanc, if_true]; exact hs.2.2.1
  | false =>
    simp only [hcanc, Bool.false_eq_true, if_false]
    cases hfin : env.synth.final with
    | ok u => simp only []; exact hs.2.2.1
    | error msg =>
      simp only []
      cases hab2 : env.aborted (synthItemsLoop env env.synth.items k).2.1 with
      | true => simp only [hab2, if_true]; omega
      | false =>
        simp only [hab2, Bool.false_eq_true, if_false]
        have := hs.2.2.1
        omega

theorem runSearchPhase_shape (env : AgentEnv) (topic : String) :
    (((runSearchPhase env topic).exit = SearchExit.finished ∨
      (runSearchPhase env topic).exit = SearchExit.exhausted) →
      ∀ e ∈ (runSearchPhase env topic).events, searchEv e) ∧
    ((runSearchPhase env topic).exit = SearchExit.cancelled →
      ∃ pre, (runSearchPhase env topic).events = pre ++ [cancelEv] ∧
        ∀ e ∈ pre, searchEv e) ∧
    (∀ msg, (runSearchPhase env topic).exit = SearchExit.apiFailed msg →
      ∃ pre, (runSearchPhase env topic).events
          = pre ++ [⟨EventType.error, EventData.str ("API error: " ++ msg)⟩] ∧
        ∀ e ∈ pre, searchEv e) := by
  unfold runSearchPhase
  exact searchLoop_shape env maxIterations 0 0 0 (initialMessages topic) []

theorem runSearchPhase_polls (env : AgentEnv) (topic : String) :
    0 ≤ (runSearchPhase env topic).nextCheckIdx ∧
    ((runSearchPhase env topic).exit ≠ SearchExit.cancelled →
      ∀ j, 0 ≤ j → j < (runSearchPhase env topic).nextCheckIdx → env.aborted j = false) := by
  unfold runSearchPhase
  exact searchLoop_polls env maxIterations 0 0 0 (initialMessages topic) []

theorem runSearchPhase_counts (env : AgentEnv) (topic : String) :
    CountsOk 0 (countsOf (runSearchPhase env topic).events)
      (mapSize (runSearchPhase env topic).collected) := by
  unfold runSearchPhase
  have h := searchLoop_counts env maxIterations 0 0 0 (initialMessages topic) []
  simpa [mapSize] using h

theorem runAgent_polls (env : AgentEnv) (topic : String)
    (hnc : (runAgent env topic).outcome ≠ RunOutcome.cancelled) :
    ∀ j, j < (runAgent env topic).checksUsed → env.aborted j = false := by
  have hsp := runSearchPhase_polls env topic
  unfold runAgent at hnc ⊢
  simp only [] at hnc ⊢
  cases hexit : (runSearchPhase env topic).exit with
  | cancelled =>
    rw [hexit] at hnc
    simp at hnc
  | apiFailed msg =>
    rw [hexit] at hnc
    simp only []
    intro j hj
    exact hsp.2 (by rw [hexit]; simp) j (Nat.zero_le j) hj
  | finished =>
    rw [hexit] at hnc
    simp only [] at hnc ⊢
    by_cases hsz : mapSize (runSearchPhase env topic).collected = 0
    · rw [if_pos hsz]
      intro j hj
      exact hsp.2 (by rw [hexit]; simp) j (Nat.zero_le j) hj
    · rw [if_neg hsz] at hnc ⊢
      simp only [] at hnc ⊢
      intro j hj
      rcases Nat.lt_or_ge j (runSearchPhase env topic).nextCheckIdx with h | h
      · exact hsp.2 (by rw [hexit]; simp) j (Nat.zero_le j) h
      · exact synthPhase_polls env (runSearchPhase env topic).nextCheckIdx
          (runSearchPhase env topic).collected hnc j h hj
  | exhausted =>
    rw [hexit] at hnc
    simp only [] at hnc ⊢
    by_cases hsz : mapSize (runSearchPhase env topic).collected = 0
    · rw [if_pos hsz]
      intro j hj
      exact hsp.2 (by rw [hexit]; simp) j (Nat.zero_le j) hj
    · rw [if_neg hsz] at hnc ⊢
      simp only [] at hnc ⊢
      intro j hj
      rcases Nat.lt_or_ge j (runSearchPhase env topic).nextCheckIdx with h | h
      · exact hsp.2 (by rw [hexit]; simp) j (Nat.zero_le j) h
      · exact synthPhase_polls env (runSearchPhase env topic).nextCheckIdx
          (runSearchPhase env topic).collected hnc j h hj

theorem runAgent_cancel_shape (env : AgentEnv) (topic : String)
    (hc : (runAgent env topic).outcome = RunOutcome.cancelled) :
    ∃ pre, (runAgent env topic).events = pre ++ [cancelEv] ∧
      ∀ e ∈ pre, e.type ≠ EventType.error ∧ e.type ≠ EventType.complete := by
  have hsh := runSearchPhase_shape env topic
  unfold runAgent at hc ⊢
  simp only [] at hc ⊢
  cases hexit : (runSearchPhase env topic).exit with
  | cancelled =>
    simp only [hexit]
    obtain ⟨pre, hpre, hall⟩ := hsh.2.1 hexit
    refine ⟨startEv topic :: pre, by simp [hpre], ?_⟩
    intro e he
    rcases List.mem_cons.mp he with h | h
    · subst h; exact ⟨by simp [startEv], by simp [startEv]⟩
    · rcases hall e h with h2 | h2 | h2 | h2 <;> rw [h2] <;> exact ⟨by simp, by simp⟩
  | apiFailed msg =>
    rw [hexit] at hc
    simp at hc
  | finished =>
    rw [hexit] at hc
    simp only [] at hc ⊢
    by_cases hsz : mapSize (runSearchPhase env topic).collected = 0
    · rw [if_pos hsz] at hc
      simp at hc
    · rw [if_neg hsz] at hc ⊢
      simp only [] at hc ⊢
      obtain ⟨pre, hpre, hall⟩ := synthPhase_cancel_shape env
        (runSearchPhase env topic).nextCheckIdx (runSearchPhase env topic).collected hc
      refine ⟨startEv topic :: (runSearchPhase env topic).events
        ++ reviewStartEvs (runSearchPhase env topic).collected ++ pre, by simp [hpre], ?_⟩
      intro e he
      rcases List.mem_cons.mp he with h | h
      · subst h; exact ⟨by simp [startEv], by simp [startEv]⟩
      · rcases List.mem_append.mp h with h2 | h2
        · rcases List.mem_append.mp h2 with h3 | h3
          · rcases hsh.1 (Or.inl hexit) e h3 with h4 | h4 | h4 | h4 <;> rw [h4] <;>
              exact ⟨by simp, by simp⟩
          · simp [reviewStartEvs] at h3
            rcases h3 with h4 | h4 <;> subst h4 <;> exact ⟨by simp, by simp⟩
        · rw [hall e h2]
          exact ⟨by simp, by simp⟩
  | exhausted =>
    rw [hexit] at hc
    simp only [] at hc ⊢
    by_cases hsz : mapSize (runSearchPhase env topic).collected = 0
    · rw [if_pos hsz] at hc
      simp at hc
    · rw [if_neg hsz] at hc ⊢
      simp only [] at hc ⊢
      obtain ⟨pre, hpre, hall⟩ := synthPhase_cancel_shape env
        (runSearchPhase env topic).nextCheckIdx (runSearchPhase env topic).collected hc
      refine ⟨startEv topic :: (runSearchPhase env topic).events
        ++ reviewStartEvs (runSearchPhase env topic).collected ++ pre, by simp [hpre], ?_⟩
      intro e he
      rcases List.mem_cons.mp he with h | h
      · subst h; exact ⟨by simp [startEv], by simp [startEv]⟩
      · rcases List.mem_append.mp h with h2 | h2
        · rcases List.mem_append.mp h2 with h3 | h3
          · rcases hsh.1 (Or.inr hexit) e h3 with h4 | h4 | h4 | h4 <;> rw [h4] <;>
              exact ⟨by simp, by simp⟩
          · simp [reviewStartEvs] at h3
            rcases h3 with h4 | h4 <;> subst h4 <;> exact ⟨by simp, by simp⟩
        · rw [hall e h2]
          exact ⟨by simp, by simp⟩

theorem monoFrom_chain (l : List Nat) :
    ∀ n, MonoFrom n l → List.Chain' (· ≤ ·) l := by
  induction l with
  | nil =>
    intro n _
    simp
  | cons x xs ih =>
    intro n h
    cases xs with
    | nil => simp
    | cons y ys =>
      rw [List.chain'_cons]
      exact ⟨h.2.1, ih x h.2⟩

theorem countsOf_cons_skip (e : AgentEvent) (l : List AgentEvent)
    (h : e.type ≠ EventType.papers_count) : countsOf (e :: l) = countsOf l := by
  obtain ⟨t, d⟩ := e
  cases t <;> cases d <;> simp_all [countsOf]

theorem countsOf_runAgent_events (env : AgentEnv) (topic : String) :
    countsOf (runAgent env topic).events = countsOf (runSearchPhase env topic).events := by
  unfold runAgent
  simp only []
  cases hexit : (runSearchPhase env topic).exit with
  | cancelled =>
    simp only []
    exact countsOf_cons_skip (startEv topic) _ (by simp [startEv])
  | apiFailed msg =>
    simp only []
    exact countsOf_cons_skip (startEv topic) _ (by simp [startEv])
  | finished =>
    simp only []
    by_cases hsz : mapSize (runSearchPhase env topic).collected = 0
    · rw [if_pos hsz]
      simp only []
      refine (countsOf_cons_skip (startEv topic) _ (by simp [startEv])).trans ?_
      simp only [List.append_eq]
      rw [countsOf_append]
      rw [show countsOf [noPapersEv] = [] from rfl, List.append_nil]
    · rw [if_neg hsz]
      simp only []
      refine (countsOf_cons_skip (startEv topic) _ (by simp [startEv])).trans ?_
      simp only [List.append_eq]
      rw [countsOf_append, countsOf_append]
      rw [show countsOf (reviewStartEvs (runSearchPhase env topic).collected) = [] from rfl]
      rw [countsOf_nil_of
        (synthPhase env (runSearchPhase env topic).nextCheckIdx (runSearchPhase env topic).collected).1
        (fun e he => by
          rcases synthPhase_event_types env _ _ e he with h | h | h <;> rw [h] <;> simp)]
      simp
  | exhausted =>
    simp only []
    by_cases hsz : mapSize (runSearchPhase env topic).collected = 0
    · rw [if_pos hsz]
      simp only []
      refine (countsOf_cons_skip (startEv topic) _ (by simp [startEv])).trans ?_
      simp only [List.append_eq]
      rw [countsOf_append]
      rw [show countsOf [noPapersEv] = [] from rfl, List.append_nil]
    · rw [if_neg hsz]
      simp only []
      refine (countsOf_cons_skip (startEv topic) _ (by simp [startEv])).trans ?_
      simp only [List.append_eq]
      rw [countsOf_append, countsOf_append]
      rw [show countsOf (reviewStartEvs (runSearchPhase env topic).collected) = [] from rfl]
      rw [countsOf_nil_of
        (synthPhase env (runSearchPhase env topic).nextCheckIdx (runSearchPhase env topic).collected).1
        (fun e he => by
          rcases synthPhase_event_types env _ _ e he with h | h | h <;> rw [h] <;> simp)]
      simp

theorem goodMap_nil : goodMap [] :=
  ⟨List.nodup_nil, fun e he => absurd he (List.not_mem_nil e)⟩

theorem goodMap_foldl (calls : List (String × ToolArgs × ToolEnv)) :
    ∀ m, goodMap m →
      goodMap (calls.foldl (fun m c => (executeTool c.1 c.2.1 c.2.2 m).collected) m) := by
  induction calls with
  | nil => intro m hg; exact hg
  | cons c rest ih =>
    intro m hg
    exact ih _ (goodMap_executeTool c.1 c.2.1 c.2.2 m hg)

theorem executeTool_s2_requests (input : ToolArgs) (env : ToolEnv) (coll : CollectedMap) :
    (executeTool "search_semantic_scholar" input env coll).requests
      = [⟨input.query, min (jsOrNat input.limit 10) 20⟩] := by
  unfold executeTool
  rw [if_pos rfl]
  cases hc : (searchSemanticScholar input.query (min (jsOrNat input.limit 10) 20) env.s2).2 <;>
    simp only [hc] <;> rfl

theorem executeTool_arxiv_requests (input : ToolArgs) (env : ToolEnv) (coll : CollectedMap) :
    (executeTool "search_arxiv" input env coll).requests
      = [⟨input.query, min (jsOrNat input.limit 10) 20⟩] := by
  unfold executeTool
  rw [if_neg (by decide), if_pos rfl]
  cases hc : (searchArxiv input.query (min (jsOrNat input.limit 10) 20) env.arxiv).2 <;>
    simp only [hc] <;> rfl

/-- C1: for every sequence of tool executions in one review run (searches
against either provider and detail fetches), the Collected Paper Set never
contains two entries whose normalized (lowercased, trimmed) titles are equal:
threading any call sequence through `executeTool` from the empty set yields a
set whose entries have pairwise distinct normalized titles, because a returned
paper is inserted only when its normalized title is not already a key. -/
theorem C1_dedup_invariant (calls : List (String × ToolArgs × ToolEnv)) :
    ((runToolCalls calls).map (fun e => normTitle e.2.title)).Nodup := by
  have hg := goodMap_foldl calls [] goodMap_nil
  unfold runToolCalls
  have hmap : ((calls.foldl (fun m c => (executeTool c.1 c.2.1 c.2.2 m).collected) []).map
        (fun e => normTitle e.2.title))
      = ((calls.foldl (fun m c => (executeTool c.1 c.2.1 c.2.2 m).collected) []).map
        Prod.fst) := by
    apply List.map_congr_left
    intro e he
    exact (hg.2 e he).symm
  rw [hmap]
  exact hg.1

/-- C2: the search phase executes at most 8 reasoning iterations: the
`iterations` counter starts at 0, is incremented once per loop entry (one LLM
call each), and the loop refuses to enter once the counter reaches the hard
ceiling of 8, so the final counter value never exceeds 8. -/
theorem C2_iteration_bound (env : AgentEnv) (topic : String) :
    (runSearchPhase env topic).llmCalls ≤ 8 := by
  unfold runSearchPhase
  have h := searchLoop_llmCalls_le env maxIterations 0 0 0 (initialMessages topic) []
  simpa [maxIterations] using h

/-- C3 counterexample: an iteration with zero tool-use blocks, no sentinel
phrase, and fewer than 3 iterations elapsed, in which the loop nevertheless
terminates — because the provider reported stop reason "end_turn", firing
termination condition (c), which the claim's definition of "termination has
not been authorized" omits. -/
theorem C3_counterexample :
    toolUses endTurnResp.content = [] ∧
    strIncludes (String.intercalate "\n" (textBlocks endTurnResp.content)) sentinel = false ∧
    (1 : Nat) < 3 ∧
    (runSearchPhase (calmEnv endTurnResp) "federated learning").llmCalls = 1 ∧
    (runSearchPhase (calmEnv endTurnResp) "federated learning").exit = SearchExit.finished := by
  refine ⟨rfl, by decide, by decide, by decide, by decide⟩

/-- C3 (amended): in every search-phase iteration in which the LLM response
contains zero tool-use blocks, termination has not been authorized (fewer than
3 iterations elapsed, no sentinel phrase in the text), and additionally the
provider-reported stop reason is not "end_turn", the loop does not terminate:
it appends the assistant turn and a synthetic user nudge to the transcript,
emits only the step status and thinking events, and continues to the next
iteration with the same collected set. -/
theorem C3_nudge_continues (env : AgentEnv) (fuel iterations toolIdx checkIdx : Nat)
    (messages : List Message) (collected : CollectedMap) (resp : LLMResponse)
    (hab : env.aborted checkIdx = false)
    (hllm : env.llm iterations = LLMOutcome.ok resp)
    (htools : toolUses resp.content = [])
    (hsent : strIncludes (String.intercalate "\n" (textBlocks resp.content)) sentinel = false)
    (hiter : iterations + 1 < 3)
    (hstop : resp.stopReason ≠ "end_turn") :
    searchLoop env (fuel + 1) iterations toolIdx checkIdx messages collected =
      withPre (stepStatusEv (iterations + 1) :: thinkEvents (textBlocks resp.content))
        (searchLoop env fuel (iterations + 1) toolIdx (checkIdx + 1)
          (messages ++ [⟨"assistant", MsgContent.blocks resp.content⟩, nudgeMsg]) collected) := by
  rw [searchLoop]
  simp only [hab, Bool.false_eq_true, if_false, hllm]
  split
  · rename_i hcond
    rw [hsent, htools] at hcond
    simp at hcond
    rcases hcond with h | h
    · omega
    · exact absurd h hstop
  · rw [if_pos (by rw [htools]; rfl : (toolUses resp.content).isEmpty = true)]

/-- C3 witness: the amended step equation applied to a concrete stalled
response in iteration 1. -/
theorem C3_nudge_continues_witness :
    (calmEnv stalledResp).aborted 0 = false ∧
    (calmEnv stalledResp).llm 0 = LLMOutcome.ok stalledResp ∧
    toolUses stalledResp.content = [] ∧
    strIncludes (String.intercalate "\n" (textBlocks stalledResp.content)) sentinel = false ∧
    0 + 1 < 3 ∧
    stalledResp.stopReason ≠ "end_turn" ∧
    searchLoop (calmEnv stalledResp) 8 0 0 0 (initialMessages "agents") [] =
      withPre (stepStatusEv 1 :: thinkEvents (textBlocks stalledResp.content))
        (searchLoop (calmEnv stalledResp) 7 1 0 1
          (initialMessages "agents"
            ++ [⟨"assistant", MsgContent.blocks stalledResp.content⟩, nudgeMsg]) []) :=
  ⟨rfl, rfl, rfl, by decide, by decide, by decide,
    C3_nudge_continues (calmEnv stalledResp) 7 0 0 0 (initialMessages "agents") [] stalledResp
      rfl rfl rfl (by decide) (by decide) (by decide)⟩

/-- C4: in every run whose search phase ends (finished or exhausted) with an
empty Collected Paper Set, synthesis is never attempted: the run's outcome is
the terminal empty-set error, exactly one error event is emitted, and no
review_start, review_chunk or complete event appears in the trace. -/
theorem C4_empty_set_guard (env : AgentEnv) (topic : String)
    (hexit : (runSearchPhase env topic).exit = SearchExit.finished ∨
      (runSearchPhase env topic).exit = SearchExit.exhausted)
    (hempty : mapSize (runSearchPhase env topic).collected = 0) :
    (runAgent env topic).outcome = RunOutcome.emptySet ∧
    (runAgent env topic).events
      = startEv topic :: (runSearchPhase env topic).events ++ [noPapersEv] ∧
    List.countP (fun e => decide (e.type = EventType.error)) (runAgent env topic).events = 1 ∧
    ∀ e ∈ (runAgent env topic).events, e.type ≠ EventType.review_start ∧
      e.type ≠ EventType.review_chunk ∧ e.type ≠ EventType.complete := by
  have hsearch := (runSearchPhase_shape env topic).1 hexit
  have hrun : runAgent env topic
      = ⟨startEv topic :: (runSearchPhase env topic).events ++ [noPapersEv],
          RunOutcome.emptySet, (runSearchPhase env topic).nextCheckIdx⟩ := by
    unfold runAgent
    simp only []
    rcases hexit with h | h <;> rw [h] <;> simp only [] <;> rw [if_pos hempty]
  rw [hrun]
  refine ⟨rfl, rfl, ?_, ?_⟩
  · simp only []
    have h0 : List.countP (fun e => decide (e.type = EventType.error))
        (runSearchPhase env topic).events = 0 := by
      rw [List.countP_eq_zero]
      intro e he
      rcases hsearch e he with h | h | h | h <;> simp [h]
    simp [List.countP_cons, List.countP_append, h0, startEv, noPapersEv]
  · intro e he
    simp only [] at he
    rcases List.mem_cons.mp he with h | h
    · subst h
      exact ⟨by simp [startEv], by simp [startEv], by simp [startEv]⟩
    · rcases List.mem_append.mp h with h2 | h2
      · rcases hsearch e h2 with h3 | h3 | h3 | h3 <;> rw [h3] <;>
          exact ⟨by simp, by simp, by simp⟩
      · simp at h2
        subst h2
        exact ⟨by simp [noPapersEv], by simp [noPapersEv], by simp [noPapersEv]⟩

/-- C4 witness: a run whose single LLM response is the bare sentinel collects
nothing and hits the empty-set guard. -/
theorem C4_empty_set_guard_witness :
    ((runSearchPhase (calmEnv sentinelOnlyResp) "agents").exit = SearchExit.finished ∨
      (runSearchPhase (calmEnv sentinelOnlyResp) "agents").exit = SearchExit.exhausted) ∧
    mapSize (runSearchPhase (calmEnv sentinelOnlyResp) "agents").collected = 0 ∧
    (runAgent (calmEnv sentinelOnlyResp) "agents").outcome = RunOutcome.emptySet :=
  ⟨Or.inl (by decide), by decide,
    (C4_empty_set_guard (calmEnv sentinelOnlyResp) "agents" (Or.inl (by decide)) (by decide)).1⟩

/-- C5: every papers_count event emitted by a tool execution carries exactly
the size of the Collected Paper Set at the moment of emission (the set is not
mutated between the emission point and the call's return, so that size is the
returned set's size), and across any whole run the sequence of papers_count
values is non-decreasing. -/
theorem C5_papers_count_monotone :
    (∀ (name : String) (input : ToolArgs) (env : ToolEnv) (coll : CollectedMap),
      ∀ e ∈ (executeTool name input env coll).events, e.type = EventType.papers_count →
        e.data = EventData.num (mapSize (executeTool name input env coll).collected)) ∧
    ∀ (env : AgentEnv) (topic : String),
      List.Chain' (· ≤ ·) (countsOf (runAgent env topic).events) :=
  ⟨executeTool_count_data,
    fun env topic => by
      rw [countsOf_runAgent_events]
      exact monoFrom_chain _ 0 (runSearchPhase_counts env topic).1⟩

/-- C5 witness: the papers_count event of a one-hit search carries the new
set size 1. -/
theorem C5_papers_count_witness :
    (⟨EventType.papers_count, EventData.num 1⟩ : AgentEvent)
        ∈ (executeTool "search_semantic_scholar" {query := "q"} oneHitToolEnv []).events ∧
    (⟨EventType.papers_count, EventData.num 1⟩ : AgentEvent).data
      = EventData.num
          (mapSize (executeTool "search_semantic_scholar" {query := "q"} oneHitToolEnv []).collected) :=
  ⟨by decide, C5_papers_count_monotone.1 "search_semantic_scholar" {query := "q"}
    oneHitToolEnv [] ⟨EventType.papers_count, EventData.num 1⟩ (by decide) rfl⟩

/-- C6: once an LLM response's text contains the sentinel phrase
SYNTHESIS_READY (substring match), no further tool calls are dispatched in the
run: if the k-th LLM call (0-based) returns sentinel-bearing text and the
loop reaches that call, the loop stops there (the counter ends at k+1) and
every dispatched tool call belongs to an earlier iteration — none from the
sentinel response itself, since the sentinel check precedes tool dispatch. -/
theorem C6_sentinel_stops_tools (env : AgentEnv) (topic : String) (kk : Nat)
    (resp : LLMResponse)
    (hllm : env.llm kk = LLMOutcome.ok resp)
    (hsent : strIncludes (String.intercalate "\n" (textBlocks resp.content)) sentinel = true)
    (hreach : kk + 1 ≤ (runSearchPhase env topic).llmCalls) :
    (runSearchPhase env topic).llmCalls = kk + 1 ∧
    ∀ d ∈ (runSearchPhase env topic).dispatches, d.1 ≤ kk := by
  unfold runSearchPhase at hreach ⊢
  exact searchLoop_sentinel env maxIterations 0 0 0 (initialMessages topic) [] kk resp
    (Nat.zero_le kk) hllm hsent hreach

/-- C6 witness: a first response carrying both the sentinel text and a
tool-use block dispatches nothing. -/
theorem C6_sentinel_stops_tools_witness :
    (calmEnv sentinelResp).llm 0 = LLMOutcome.ok sentinelResp ∧
    strIncludes (String.intercalate "\n" (textBlocks sentinelResp.content)) sentinel = true ∧
    0 + 1 ≤ (runSearchPhase (calmEnv sentinelResp) "agents").llmCalls ∧
    ((runSearchPhase (calmEnv sentinelResp) "agents").llmCalls = 0 + 1 ∧
      ∀ d ∈ (runSearchPhase (calmEnv sentinelResp) "agents").dispatches, d.1 ≤ 0) :=
  ⟨rfl, by decide, by decide,
    C6_sentinel_stops_tools (calmEnv sentinelResp) "agents" 0 sentinelResp rfl
      (by decide) (by decide)⟩

/-- C7: with a signal that stays raised once raised, if cancellation is
raised before some abort poll the run performs, the run's outcome is
cancelled and the trace ends with exactly one final cancellation error event:
everything before it is a non-error, non-complete event, and nothing follows
it — synthesis is not started or continued past that point. -/
theorem C7_cancellation_halts (env : AgentEnv) (topic : String)
    (hmono : MonoAborted env)
    (hraised : ∃ j, j < (runAgent env topic).checksUsed ∧ env.aborted j = true) :
    (runAgent env topic).outcome = RunOutcome.cancelled ∧
    ∃ pre, (runAgent env topic).events = pre ++ [cancelEv] ∧
      ∀ e ∈ pre, e.type ≠ EventType.error ∧ e.type ≠ EventType.complete := by
  have hout : (runAgent env topic).outcome = RunOutcome.cancelled := by
    by_contra hne
    obtain ⟨j, hj, habj⟩ := hraised
    rw [runAgent_polls env topic hne j hj] at habj
    exact absurd habj (by simp)
  exact ⟨hout, runAgent_cancel_shape env topic hout⟩

/-- C7 witness: a signal raised before the run starts cancels it at the first
poll, after one opening status event. -/
theorem C7_cancellation_halts_witness :
    MonoAborted abortedEnv ∧
    (∃ j, j < (runAgent abortedEnv "agents").checksUsed ∧ abortedEnv.aborted j = true) ∧
    ((runAgent abortedEnv "agents").outcome = RunOutcome.cancelled ∧
      ∃ pre, (runAgent abortedEnv "agents").events = pre ++ [cancelEv] ∧
        ∀ e ∈ pre, e.type ≠ EventType.error ∧ e.type ≠ EventType.complete) :=
  ⟨fun _ _ _ h => h, ⟨0, by decide, rfl⟩,
    C7_cancellation_halts abortedEnv "agents" (fun _ _ _ h => h) ⟨0, by decide, rfl⟩⟩

/-- C8 counterexample: the Search Provider Adapter itself does not clamp —
called with limit 100, `searchSemanticScholar` embeds 100 in the provider
request, so the adapter's contract alone does not keep the provider's limit
at or below 20. -/
theorem C8_counterexample :
    (searchSemanticScholar "quantum computing" 100 (S2Response.ok [])).1.limit = 100 ∧
    ¬ (searchSemanticScholar "quantum computing" 100 (S2Response.ok [])).1.limit ≤ 20 :=
  ⟨rfl, by decide⟩

/-- C8 (amended): the ceiling is enforced by the Tool Executor, not the
adapter: every provider request issued by an `executeTool` call carries
`min(requested-or-10, 20) ≤ 20`, and the adapter forwards that limit to the
provider unchanged — so every search dispatched through the executor reaches
the provider with a limit of at most 20, while a direct adapter call is not
clamped. -/
theorem C8_executor_clamps (name : String) (input : ToolArgs) (env : ToolEnv)
    (coll : CollectedMap) :
    ∀ r ∈ (executeTool name input env coll).requests, r.limit ≤ 20 := by
  intro r hr
  rw [executeTool_requests name input env coll r hr]
  exact min_le_right _ _

/-- C8 witness: the default-limit request of a quiet search is clamped to 10
which is at most 20. -/
theorem C8_executor_clamps_witness :
    (⟨"", 10⟩ : ProviderRequest)
        ∈ (executeTool "search_semantic_scholar" {} quietToolEnv []).requests ∧
    (⟨"", 10⟩ : ProviderRequest).limit ≤ 20 :=
  ⟨by decide, C8_executor_clamps "search_semantic_scholar" {} quietToolEnv []
    ⟨"", 10⟩ (by decide)⟩

/-- C9 counterexample: `searchArxiv` does not discard untitled records — an
arXiv feed entry without a title field is returned as a Paper whose title is
the empty string. -/
theorem C9_counterexample :
    (searchArxiv "quantum" 5 (ArxivResponse.ok [untitledEntry])).2
      = Except.ok (arxivNormalize [untitledEntry]) ∧
    arxivNormalize [untitledEntry] = [untitledPaper] ∧
    untitledPaper.title = "" :=
  ⟨rfl, by decide, rfl⟩

/-- C9 (amended): `searchSemanticScholar` discards records without a truthy
title at ingestion (every Paper it returns has a non-empty title), but
`searchArxiv` applies no such filter; untitled arXiv records are instead
rejected later, at insertion into the Collected Paper Set, by the search
branches' title-truthiness check in the Tool Executor. -/
theorem C9_title_filter :
    (∀ query limit data,
      (searchSemanticScholar query limit (S2Response.ok data)).2
        = Except.ok (s2Normalize data)) ∧
    (∀ (data : List S2Raw), ∀ p ∈ s2Normalize data, p.title ≠ "") ∧
    (∀ (srcLabel : String) (papers : List Paper) (coll : CollectedMap),
      ∀ e ∈ (insertPapers srcLabel coll papers).1, e ∈ coll ∨ e.2.title ≠ "") := by
  refine ⟨fun query limit data => rfl, ?_, ?_⟩
  · intro data p hp
    obtain ⟨r, hr, rfl⟩ := List.mem_map.mp hp
    have ht := (List.mem_filter.mp hr).2
    cases hto : r.title with
    | none => rw [hto] at ht; simp [truthyStr] at ht
    | some v =>
      rw [hto] at ht
      simp only [truthyStr, ne_eq, decide_not] at ht
      simp only [hto, Option.getD_some]
      intro hv
      rw [hv] at ht
      simp at ht
  · intro srcLabel papers
    induction papers with
    | nil =>
      intro coll e he
      exact Or.inl (by simpa [insertPapers] using he)
    | cons p rest ih =>
      intro coll e he
      rw [insertPapers] at he
      split at he
      · rename_i hcond
        simp only [Bool.and_eq_true, decide_eq_true_eq] at hcond
        rcases ih _ e he with h | h
        · have hhas : mapHas coll (normTitle p.title) = false := by
            have h2 := hcond.2
            simp only [Bool.not_eq_true'] at h2
            exact h2
          unfold mapSet at h
          rw [hhas] at h
          simp only [Bool.false_eq_true, if_false] at h
          rcases List.mem_append.mp h with h2 | h2
          · exact Or.inl h2
          · simp at h2
            subst h2
            exact Or.inr hcond.1
        · exact Or.inr h
      · exact ih coll e he

/-- C9 witness: the title filter applied to a titled raw record. -/
theorem C9_title_filter_witness :
    samplePaper ∈ s2Normalize [sampleRaw] ∧ samplePaper.title ≠ "" :=
  ⟨by decide, C9_title_filter.2.1 [sampleRaw] samplePaper (by decide)⟩

/-- C10: an `executeTool` search call whose arguments carry no limit field or
a limit of 0 invokes the provider adapter with the default limit 10: the
JavaScript falsiness default `limit || 10` is applied before the ceiling
clamp, so a requested limit of 0 is silently replaced by 10 rather than
producing zero results. -/
theorem C10_default_limit (input : ToolArgs) (env : ToolEnv) (coll : CollectedMap)
    (h : input.limit = none ∨ input.limit = some 0) :
    (executeTool "search_semantic_scholar" input env coll).requests.map ProviderRequest.limit
        = [10] ∧
    (executeTool "search_arxiv" input env coll).requests.map ProviderRequest.limit = [10] := by
  rw [executeTool_s2_requests, executeTool_arxiv_requests]
  rcases h with h | h <;> rw [h] <;> simp [jsOrNat]

/-- C10 witness: a search invocation with no limit field is forwarded with
limit 10. -/
theorem C10_default_limit_witness :
    (({} : ToolArgs).limit = none ∨ ({} : ToolArgs).limit = some 0) ∧
    ((executeTool "search_semantic_scholar" {} quietToolEnv []).requests.map
        ProviderRequest.limit = [10] ∧
      (executeTool "search_arxiv" {} quietToolEnv []).requests.map ProviderRequest.limit
        = [10]) :=
  ⟨Or.inl rfl, C10_default_limit {} quietToolEnv [] (Or.inl rfl)⟩

end LitReview
